import Mathlib

/-!
Verification model of the popup text-list engine in
`clink/lib/src/textlist_impl.cpp`.

Strings are modelled at the codepoint level: a string is a `List Nat` of
Unicode codepoints (the C++ code walks strings with `str_iter`, which
decodes UTF-8 into codepoints).  Byte positions are recovered through the
UTF-8 encoding length of each codepoint.
-/

set_option maxRecDepth 4000

namespace Clink

/-- Modelled from the spec: `clink_wcwidth` lives in terminal support code
that is not under src/.  Per the glossary, the cell width of a character is
1 for most characters, 2 for wide scripts, and 0 for combining marks; the
model uses the combining-diacritics block for width 0 and Hangul-Jamo plus
CJK-ideograph blocks for width 2. -/
def clink_wcwidth (c : Nat) : Int :=
  if 0x300 ≤ c ∧ c ≤ 0x36F then 0
  else if (0x1100 ≤ c ∧ c ≤ 0x115F) ∨ (0x4E00 ≤ c ∧ c ≤ 0x9FFF) then 2
  else 1

/-- Number of bytes in the UTF-8 encoding of a codepoint. -/
def utf8Len (c : Nat) : Nat :=
  if c < 0x80 then 1 else if c < 0x800 then 2 else if c < 0x10000 then 3 else 4

/-- Total byte length of a codepoint string. -/
def byteLen (s : List Nat) : Nat := (s.map utf8Len).sum

/-- Total cell width of a codepoint string. -/
def cellWidth (s : List Nat) : Int := (s.map clink_wcwidth).sum

/-- Loop of `limit_cells` (textlist_impl.cpp lines 136-147): accumulates the
cell width character by character and stops as soon as the running width
reaches or exceeds the limit; the character that crossed the limit has
already been consumed.  Returns the consumed byte count and the cell
count. -/
def limit_cells_go (limit : Int) : List Nat → Int → Nat → Nat × Int
  | [], cells, bytes => (bytes, cells)
  | c :: rest, cells, bytes =>
    let cells2 := cells + clink_wcwidth c
    let bytes2 := bytes + utf8Len c
    if cells2 ≥ limit then (bytes2, cells2)
    else limit_cells_go limit rest cells2 bytes2

/-- `limit_cells(in, limit, cells)`: first component is the returned byte
count of the consumed prefix, second component is the reported cell
count. -/
def limit_cells (s : List Nat) (limit : Int) : Nat × Int :=
  limit_cells_go limit s 0 0

/-- `make_item` (lines 60-81): control characters below the space character
become a two-character caret escape `^X`; everything else is copied
verbatim. -/
def make_item (s : List Nat) : List Nat :=
  s.foldr (fun c acc => if c < 32 then 94 :: (c + 64) :: acc else c :: acc) []

/-- Exact prefix comparison.  Modelled from the spec: `str_compare` lives in
core/str_compare.h, not under src/.  The code accepts a row when
`str_compare` returns -1 (full match) or the needle length (needle
exhausted), i.e. exactly when the needle is a prefix of the haystack; the
model uses the exact comparison mode. -/
def prefixMatch : List Nat → List Nat → Bool
  | [], _ => true
  | _ :: _, [] => false
  | a :: as, b :: bs => a == b && prefixMatch as bs

/-- `strstr_compare` (lines 150-165): true when the haystack is non-empty
and the needle is a prefix of some suffix of it (a substring match); each
suffix starting position of the haystack is tried in order. -/
def strstr_compare (needle hay : List Nat) : Bool :=
  if hay = [] then false
  else (List.range hay.length).any fun k => prefixMatch needle (hay.drop k)

/-- Fuel-driven helper for `decDigits`; the fuel bounds the number of
divisions by 10, so fuel `n` always suffices. -/
def decDigitsAux : Nat → Nat → List Nat
  | 0, _ => []
  | fuel + 1, n =>
    if n < 10 then [48 + n]
    else decDigitsAux fuel (n / 10) ++ [48 + n % 10]

/-- ASCII decimal representation of a natural number, most significant
digit first, as produced by `_itoa_s` for non-negative values. -/
def decDigits (n : Nat) : List Nat :=
  decDigitsAux (n + 1) n

/-- `atoi` on the digit needle: parses leading decimal digits. -/
def atoiM : List Nat → Nat → Nat
  | [], acc => acc
  | c :: rest, acc =>
    if 48 ≤ c ∧ c ≤ 57 then atoiM rest (acc * 10 + (c - 48)) else acc

/-! ## The item store (bump-pointer arena), lines 1095-1131.

A page is modelled by the list of bytes written into it so far (starting at
offset `page_header`, the offset of the `data` member past the `next`
pointer).  Pages are kept oldest first; the C++ list head `m_page` is the
last element.  A handle is a pair (page number in allocation order, byte
offset within the page); distinct pages are disjoint allocations, so a
write into one page never alters another. -/

/-- Page size used by `VirtualAlloc` in `item_store::add`. -/
def pagesize : Nat := 65536

/-- Modelled from the spec: the offset `&p->data - (const char*)p` of the
payload past the page header; the header holds one pointer (8 bytes). -/
def page_header : Nat := 8

structure Store where
  pages : List (List Nat)
  front : Nat
  back : Nat
deriving DecidableEq

/-- The store before any allocation: `m_page = nullptr`, `m_front = m_back = 0`. -/
def Store.empty : Store := ⟨[], 0, 0⟩

/-- `item_store::add` (lines 1101-1118).  `len` counts the terminator; if it
does not fit in the remaining space of the current page, a fresh page is
linked in and the bump pointer reset past the header.  The item bytes plus
the terminator are copied at the bump pointer, which then advances.
Returns the new store and the handle of the copy. -/
def Store.add (s : Store) (item : List Nat) : Store × (Nat × Nat) :=
  let len := item.length + 1
  let s :=
    if len > s.back - s.front then
      { pages := s.pages ++ [[]], front := page_header, back := pagesize }
    else s
  let pidx := s.pages.length - 1
  let off := s.front
  let pages2 := s.pages.set pidx ((s.pages.getD pidx []) ++ item ++ [0])
  ({ pages := pages2, front := s.front + len, back := s.back }, (pidx, off))

/-- `item_store::clear` (lines 1121-1131): every page is released and the
bump pointers reset. -/
def Store.clear (_ : Store) : Store := ⟨[], 0, 0⟩

/-- Dereference a handle: the bytes at the handle offset up to the
terminator.  `none` when the page does not exist or no terminator is
present in the page after the offset (the handle does not denote an
allocated string). -/
def Store.read (s : Store) (h : Nat × Nat) : Option (List Nat) :=
  match s.pages.get? h.1 with
  | none => none
  | some data =>
    let tail := data.drop (h.2 - page_header)
    if 0 ∈ tail then some (tail.takeWhile (· ≠ 0)) else none

/-- Well-formedness of a store as maintained by the code: with no page yet
both bump pointers are zero, and otherwise the bump pointer sits exactly
past the bytes written into the current page. -/
def Store.wf (s : Store) : Bool :=
  match s.pages with
  | [] => s.back = 0 && s.front = 0
  | _ :: _ =>
    s.front = page_header + (s.pages.getD (s.pages.length - 1) []).length

/-! ## The selection/search state machine.

`Cfg` holds the data seeded once per activation and the ambient host
configuration read during it; `St` holds the mutable engine state.  Screen
geometry lives in `St` because `on_terminal_resize` updates it. -/

inductive PopupResult | error | cancel | use | select
deriving DecidableEq

structure Results where
  result : PopupResult
  rindex : Option Int
  rtext : Option (List Nat)
deriving DecidableEq

/-- Modelled from the spec: `popup_results::clear` is declared in the
header, not under src/; a cleared result carries no index and no text. -/
def Results.cleared : Results := ⟨PopupResult.error, none, none⟩

inductive Title
  | findT : List Nat → Title
  | histT : List Nat → Title
deriving DecidableEq

/-- Modelled from the spec: `max_columns` is declared in the header, not
under src/; the column extractor keeps a fixed maximum number of auxiliary
columns. -/
def max_columns : Nat := 3

structure Cfg where
  count : Int
  wraparound : Bool
  reverse : Bool
  history_mode : Bool
  win_history : Bool
  has_columns : Bool
  items : List (List Nat)
  cols : List (List (Option (List Nat)))
  infos : Option (List Int)
  entries : List (List Nat)
deriving DecidableEq

structure St where
  index : Int
  top : Int
  visible_rows : Int
  screen_cols : Int
  screen_rows : Int
  needle : List Nat
  needle_is_number : Bool
  input_clears_needle : Bool
  override_title : Option Title
  has_override_title : Bool
  prev_displayed : Int
  active : Bool
  res : Results
deriving DecidableEq

/-- Primary item text of row `i` (`m_items[i]`). -/
def get_item (cfg : Cfg) (i : Int) : List Nat := cfg.items.getD i.toNat []

/-- `addl_columns::get_col_text` for row `i` (a null pointer is `none`). -/
def get_col_text (cfg : Cfg) (i : Int) (col : Nat) : Option (List Nat) :=
  (cfg.cols.getD i.toNat []).getD col none

/-- `strstr_compare` against a possibly null haystack pointer. -/
def strstr_compare_opt (needle : List Nat) : Option (List Nat) → Bool
  | none => false
  | some h => strstr_compare needle h

/-- One row of the search loop (lines 508-513): the needle is tested
against the primary item text first and then, when columns are present,
against each column text in order. -/
def row_match (cfg : Cfg) (needle : List Nat) (i : Int) : Bool :=
  strstr_compare needle (get_item cfg i) ||
    (cfg.has_columns &&
      (List.range max_columns).any fun col =>
        strstr_compare_opt needle (get_col_text cfg i col))

/-- `advance_index` (lines 384-397). -/
def advance_index (i direction count : Int) : Int :=
  let i2 := i + direction
  if direction < 0 then (if i2 < 0 then count - 1 else i2)
  else (if i2 ≥ count then 0 else i2)

/-- `set_top` (lines 1048-1057). -/
def set_top (st : St) (t : Int) : St :=
  if t ≠ st.top then { st with top := t, prev_displayed := -1 } else st

/-- `update_top` (lines 768-784). -/
def update_top (cfg : Cfg) (st : St) : St :=
  let y := st.index
  if st.top > y then set_top st y
  else
    let rows := min cfg.count st.visible_rows
    let t := max 0 (y - (rows - 1))
    if st.top < t then set_top st t else st

/-- State effect of `update_display` (lines 787-1045): when there is room
and the engine is active with items, the top offset is resynchronized, the
override-title latch records whether an override title is present, and the
previously displayed row becomes the current one; when inactive the list is
cleared and a full redraw forced. -/
def update_display (cfg : Cfg) (st : St) : St :=
  if st.visible_rows > 0 then
    if st.active ∧ cfg.count > 0 then
      let st1 := update_top cfg st
      let st2 := { st1 with has_override_title := st1.override_title.isSome }
      { st2 with prev_displayed := st2.index }
    else
      { st with prev_displayed := -1 }
  else st

/-- `textlist_impl::cancel` (lines 736-752). -/
def cancel_act (cfg : Cfg) (st : St) (r : PopupResult) : St :=
  let res :=
    if (r = PopupResult.use ∨ r = PopupResult.select) ∧
        0 ≤ st.index ∧ st.index < cfg.count then
      { result := r, rindex := some st.index,
        rtext := some (cfg.entries.getD st.index.toNat []) }
    else { Results.cleared with result := r }
  { st with res := res, active := false }

/-- Search loop of the `find:` label (lines 505-528), fuelled by the row
count: test the current row; on a match return it, otherwise advance
circularly and stop upon returning to the selected row `origin`
(`m_index`). -/
def find_scan (cfg : Cfg) (needle : List Nat) (direction origin : Int) :
    Nat → Int → Option Int
  | 0, _ => none
  | Nat.succ fuel, i =>
    if row_match cfg needle i then some i
    else
      let i2 := advance_index i direction cfg.count
      if i2 = origin then none else find_scan cfg needle direction origin fuel i2

/-- Scan direction of the `find:` label (lines 489-491): -1 for find-prev,
flipped when the list is displayed in reverse order. -/
def find_direction (cfg : Cfg) (isPrev : Bool) : Int :=
  let d0 : Int := if isPrev then -1 else 1
  if cfg.reverse then -d0 else d0

/-- Start row of the `find:` scan (lines 498-503): the far end for a
restarted search, else the selected row, advanced one position for the
find-next/find-prev bindings. -/
def find_start (cfg : Cfg) (st : St) (from_begin preAdvance : Bool)
    (direction : Int) : Int :=
  let i0 := if from_begin then (if cfg.reverse then cfg.count - 1 else 0) else st.index
  if preAdvance then advance_index i0 direction cfg.count else i0

/-- State after a search match lands on row `j` (lines 515-523 and
696-702): select the row, pull the top offset to it when it is out of
view, and force a full redraw. -/
def found_state (cfg : Cfg) (st : St) (j : Int) : St :=
  let st1 := { st with index := j }
  let st2 :=
    if st1.index < st1.top ∨ st1.index ≥ st1.top + st1.visible_rows then
      { st1 with top := max 0 (min st1.index (cfg.count - st1.visible_rows)) }
    else st1
  { st2 with prev_displayed := -1 }

/-- State after the numeric history jump lands on row `j` (lines 666-672):
as `found_state` but recentering the window on the row. -/
def jump_state (cfg : Cfg) (st : St) (j : Int) : St :=
  let st1 := { st with index := j }
  let st2 :=
    if st1.index < st1.top ∨ st1.index ≥ st1.top + st1.visible_rows then
      { st1 with top := max 0 (min (st1.index - st1.visible_rows / 2)
          (cfg.count - st1.visible_rows)) }
    else st1
  { st2 with prev_displayed := -1 }

/-- The `find:` label for the non-windowed modes (lines 488-532).
`isPrev` distinguishes find-prev; `preAdvance` is true exactly for the
find-next/find-prev bindings, which start one past the selected row;
`from_begin` restarts from the far end; `need_display0` is the value of
`need_display` on entry.  Returns the new state and whether the display
was updated. -/
def do_find (cfg : Cfg) (st : St) (isPrev preAdvance from_begin need_display0 : Bool) :
    St × Bool :=
  let direction := find_direction cfg isPrev
  let i1 := find_start cfg st from_begin preAdvance direction
  match find_scan cfg st.needle direction st.index cfg.count.toNat i1 with
  | some j => (update_display cfg (found_state cfg st j), true)
  | none =>
    if need_display0 then (update_display cfg st, true) else (st, false)

/-- Backward circular scan of the windowed-history fallback search
(lines 685-704): step back first, stop silently when the scan returns to
the selected row, and accept the first row whose item text has the needle
as a prefix. -/
def back_scan (cfg : Cfg) (needle : List Nat) (origin : Int) :
    Nat → Int → Option Int
  | 0, _ => none
  | Nat.succ fuel, i =>
    let i2 := if i - 1 < 0 then cfg.count - 1 else i - 1
    if i2 = origin then none
    else if prefixMatch needle (get_item cfg i2) then some i2
    else back_scan cfg needle origin fuel i2

/-- Linear lookup of the numeric commit (lines 642-661): the typed number
is re-rendered in decimal and compared by `strncmp` against the decimal
rendering of each row's history number `infos[lookup].index + 1`, i.e.
accepted when it is a decimal-digit prefix of it; returns the first such
row. -/
def seq_lookup (l : List Int) (needleDigits : List Nat) : Option Nat :=
  l.findIdx? fun info => prefixMatch needleDigits (decDigits (info + 1).toNat)

/-- One decoded character of the catch-all input collection loop
(lines 584-620).  The triple carries (state, refresh, need_display). -/
def collect_char (cfg : Cfg) (p : St × Bool × Bool) (c : Nat) : St × Bool × Bool :=
  let (st, refresh, nd) := p
  if ¬cfg.win_history then
    ({ st with override_title := none, needle := st.needle ++ [c] },
      st.has_override_title, true)
  else if 48 ≤ c ∧ c ≤ 57 then
    let (st1, refresh1) :=
      if ¬st.needle_is_number then
        ({ st with override_title := none, needle := [], needle_is_number := true },
          st.has_override_title)
      else (st, refresh)
    (if st1.needle.length < 6 then { st1 with needle := st1.needle ++ [c] } else st1,
      refresh1, nd)
  else
    ({ st with override_title := none, needle := [c], needle_is_number := false },
      st.has_override_title, nd)

/-- The `update_needle:` label (lines 624-708): free-text mode rewrites the
override title and falls into the incremental find; windowed-history mode
either commits the numeric needle or runs the backward prefix search.
Returns the new state and whether the display was updated. -/
def update_needle (cfg : Cfg) (st : St) (refresh from_begin need_display : Bool) :
    St × Bool :=
  if ¬cfg.win_history then
    let st1 := { st with override_title :=
      if st.needle ≠ [] then some (Title.findT st.needle) else none }
    do_find cfg st1 false false from_begin need_display
  else if st.needle_is_number then
    if st.needle ≠ [] then
      let st1 := { st with override_title := some (Title.histT st.needle) }
      let i0 : Int := atoiM st1.needle 0
      let i : Int :=
        match cfg.infos with
        | some l =>
          (match seq_lookup l (decDigits (atoiM st1.needle 0)) with
            | some k => (k : Int)
            | none => cfg.count)
        | none => i0 - 1
      let st2 : St :=
        if 0 ≤ i ∧ i < cfg.count then jump_state cfg st1 i else st1
      (update_display cfg st2, true)
    else
      if st.override_title.isSome then
        (update_display cfg { st with override_title := none }, true)
      else if refresh then (update_display cfg st, true)
      else (st, false)
  else
    if st.needle ≠ [] then
      match back_scan cfg st.needle st.index cfg.count.toNat st.index with
      | some j => (update_display cfg (found_state cfg st j), true)
      | none =>
        if refresh then (update_display cfg st, true) else (st, false)
    else
      if refresh then (update_display cfg st, true) else (st, false)

/-- The line after the switch (lines 713-714): most events arm the one-shot
needle-clearing latch outside windowed-history mode. -/
def post_switch (cfg : Cfg) (st : St) (set_icn : Bool) : St :=
  if set_icn ∧ ¬cfg.win_history then { st with input_clears_needle := true } else st

/-- New cursor row for the up binding (lines 418-421). -/
def up_index (cfg : Cfg) (st : St) : Int :=
  let i1 := st.index - 1
  if i1 < 0 then (if cfg.wraparound then cfg.count - 1 else 0) else i1

/-- New cursor row for the down binding (lines 425-428). -/
def down_index (cfg : Cfg) (st : St) : Int :=
  let i1 := st.index + 1
  if i1 ≥ cfg.count then (if cfg.wraparound then 0 else cfg.count - 1) else i1

/-- New cursor row for page-up (lines 446-454): snap to the top row of the
current page, or back a full page when already there. -/
def pgup_index (cfg : Cfg) (st : St) : Int :=
  let rows := min cfg.count st.visible_rows
  max 0 (if st.index = st.top then st.index - rows else st.top)

/-- State after page-down (lines 455-469): snap to the bottom row of the
current page, or forward a full page when already there, clamping and
resynchronizing the top offset on overshoot. -/
def pgdn_state (cfg : Cfg) (st : St) : St :=
  let rows := min cfg.count st.visible_rows
  let bottom := st.top + rows - 1
  let new_y := min (cfg.count - 1) (if st.index = bottom then st.index + rows else bottom)
  let st1 := { st with index := st.index + (new_y - st.index) }
  if st1.index > cfg.count - 1 then
    { set_top st1 (max 0 (cfg.count - st1.visible_rows)) with
        index := cfg.count - 1 }
  else st1

inductive Ev
  | up | down | pgup | pgdn | home | endKey
  | findnext | findprev | copy | backspace | escape | enter | insert
  | catchall : List Nat → Ev
deriving DecidableEq

/-- `textlist_impl::on_input` (lines 400-718) as a state transformer.
Returns the new state and whether the display was updated during the
event. -/
def on_input (cfg : Cfg) (st : St) (ev : Ev) : St × Bool :=
  if st.visible_rows ≤ 0 then (cancel_act cfg st PopupResult.cancel, false)
  else
    match ev with
    | Ev.up =>
      (post_switch cfg (update_display cfg { st with index := up_index cfg st }) true, true)
    | Ev.down =>
      (post_switch cfg (update_display cfg { st with index := down_index cfg st }) true, true)
    | Ev.home =>
      (post_switch cfg (update_display cfg { st with index := 0 }) true, true)
    | Ev.endKey =>
      (post_switch cfg (update_display cfg { st with index := cfg.count - 1 }) true, true)
    | Ev.pgup =>
      if st.index > 0 then
        (post_switch cfg (update_display cfg { st with index := pgup_index cfg st }) true, true)
      else (post_switch cfg st true, false)
    | Ev.pgdn =>
      if st.index < cfg.count - 1 then
        (post_switch cfg (update_display cfg (pgdn_state cfg st)) true, true)
      else (post_switch cfg st true, false)
    | Ev.findnext =>
      if cfg.win_history then (st, false)
      else do_find cfg st false true false false
    | Ev.findprev =>
      if cfg.win_history then (st, false)
      else do_find cfg st true true false false
    | Ev.copy => (st, false)
    | Ev.escape => (cancel_act cfg st PopupResult.cancel, false)
    | Ev.enter => (cancel_act cfg st PopupResult.use, false)
    | Ev.insert => (cancel_act cfg st PopupResult.select, false)
    | Ev.backspace =>
      if st.needle = [] then (st, false)
      else
        let st1 := { st with needle := st.needle.dropLast }
        update_needle cfg st1 true (¬cfg.win_history) true
    | Ev.catchall keys =>
      let st0 :=
        if st.input_clears_needle then
          { st with
            needle := [],
            needle_is_number := false,
            input_clears_needle := false }
        else st
      let (st1, refresh, nd) := keys.foldl (collect_char cfg) (st0, false, false)
      update_needle cfg st1 refresh false nd

/-- `textlist_impl::on_terminal_resize` (lines 726-733). -/
def on_terminal_resize (cfg : Cfg) (st : St) (cols rows : Int) : St :=
  let st1 := { st with screen_cols := cols, screen_rows := rows }
  if st1.active then cancel_act cfg st1 PopupResult.cancel else st1

/-! ## Activation (lines 239-331). -/

/-- `reset` (lines 1060-1090) restricted to the state fields of the model;
screen geometry is deliberately kept. -/
def St.reset (st : St) : St :=
  { st with
    visible_rows := 0, override_title := none, has_override_title := false,
    top := 0, index := 0, prev_displayed := -1,
    needle := [], needle_is_number := false, input_clears_needle := false }

/-- `update_layout` (lines 755-765). -/
def update_layout (history_mode : Bool) (screen_rows screen_cols : Int) : Int :=
  let target : Int := if history_mode then 20 else 10
  let vis := min target (screen_rows / 2 - 2 - 2)
  if screen_cols ≤ 20 then 0 else vis

/-- Display text of one encoded entry for `addl_columns::add_entry`
(lines 188-219): the match text before the first NUL is skipped and the
display text runs to the second NUL. -/
def entry_display (e : List Nat) : List Nat :=
  (((e.dropWhile (· ≠ 0)).drop 1).takeWhile (· ≠ 0))

/-- Split a codepoint string at tab characters. -/
def split_tabs (s : List Nat) : List (List Nat) :=
  s.foldr
    (fun c acc =>
      match acc with
      | [] => if c = 9 then [[], []] else [[c]]
      | cur :: rest => if c = 9 then [] :: cur :: rest else (c :: cur) :: rest)
    [[]]

/-- `make_column` (lines 84-121) on escape-free text.  Modelled from the
spec where `ecma48_iter` (not under src/) is concerned: only literal
character runs contribute, CR and LF become one space, other control
characters a two-cell caret escape. -/
def make_column (s : List Nat) : List Nat :=
  s.foldr
    (fun c acc =>
      if c = 13 ∨ c = 10 then 32 :: acc
      else if c < 32 then 94 :: (c + 64) :: acc
      else c :: acc)
    []

/-- Column texts of one encoded entry (the tab-separated tail after the
display text), up to `max_columns` entries, padded with null pointers. -/
def entry_columns (e : List Nat) : List (Option (List Nat)) :=
  let tail := ((((e.dropWhile (· ≠ 0)).drop 1).dropWhile (· ≠ 0)).drop 1)
  let cols :=
    if tail = [] then []
    else (split_tabs tail).take max_columns |>.map (fun c => some (make_column c))
  cols ++ List.replicate (max_columns - cols.length) none

inductive ActOut
  | err : Results → St → ActOut
  | ok : Cfg → St → ActOut
deriving DecidableEq

/-- `textlist_impl::activate` (lines 239-331) up to the hand-off to the
input dispatch loop.  `buffer_ok` models `m_buffer != nullptr`, `macrodef`
models `RL_ISSTATE(RL_STATE_MACRODEF)`, `wraparound` the ambient readline
wraparound flag.  On a precondition failure the error result and the reset
state are returned; otherwise the seeded configuration and the state after
the first `update_display`. -/
def activate (buffer_ok macrodef wraparound : Bool)
    (entries : Option (List (List Nat))) (count index0 : Int)
    (reverse : Bool) (history_mode : Int) (infos : Option (List Int))
    (has_columns : Bool) (st0 : St) : ActOut :=
  let st := { St.reset st0 with res := Results.cleared }
  let errRes : Results := { Results.cleared with result := PopupResult.error }
  if ¬buffer_ok then ActOut.err errRes st
  else if entries.isNone ∨ count ≤ 0 then ActOut.err errRes st
  else if macrodef then ActOut.err errRes st
  else
    let hist := history_mode ≠ 0
    let win := history_mode = 2
    let vis := update_layout hist st.screen_rows st.screen_cols
    let st := { st with visible_rows := vis }
    if vis ≤ 0 then ActOut.err errRes st
    else
      let ents := entries.getD []
      let cfg : Cfg :=
        { count := count, wraparound := wraparound, reverse := reverse,
          history_mode := hist, win_history := win, has_columns := has_columns,
          items := ents.map fun e =>
            make_item (if has_columns then entry_display e else e),
          cols := if has_columns then ents.map entry_columns else [],
          infos := infos, entries := ents }
      let st :=
        if index0 < 0 then
          { st with index := count - 1, top := max 0 (count - vis) }
        else
          { st with
            index := index0,
            top := max 0 (min (index0 - vis / 2) (count - vis)) }
      let st := { st with active := true }
      ActOut.ok cfg (update_display cfg st)

/-- Reachable engine states: a successful activation whose requested index
respects the caller contract asserted by the history wrapper
(`current < count`), followed by input events while active (the handler
asserts `m_active`) and terminal resizes. -/
inductive Reach : Cfg → St → Prop
  | init (buffer_ok macrodef wraparound : Bool)
      (entries : Option (List (List Nat))) (count index0 : Int)
      (reverse : Bool) (history_mode : Int) (infos : Option (List Int))
      (has_columns : Bool) (st0 : St) (cfg : Cfg) (st : St)
      (hidx : index0 < count)
      (heq : activate buffer_ok macrodef wraparound entries count index0 reverse
        history_mode infos has_columns st0 = ActOut.ok cfg st) :
      Reach cfg st
  | step (cfg : Cfg) (st : St) (ev : Ev) (h : Reach cfg st)
      (ha : st.active = true) : Reach cfg (on_input cfg st ev).1
  | resize (cfg : Cfg) (st : St) (cols rows : Int) (h : Reach cfg st) :
      Reach cfg (on_terminal_resize cfg st cols rows)

/-- The viewport invariant of the spec (section 3 and section 8). -/
def Inv (cfg : Cfg) (st : St) : Prop :=
  0 < cfg.count ∧ 0 < st.visible_rows ∧
  0 ≤ st.index ∧ st.index < cfg.count ∧
  0 ≤ st.top ∧ st.top ≤ max 0 (cfg.count - st.visible_rows) ∧
  st.top ≤ st.index ∧ st.index < st.top + st.visible_rows

/-- The part of the invariant that does not constrain the window placement;
`update_top` re-establishes the full invariant from it. -/
def Pre (cfg : Cfg) (st : St) : Prop :=
  0 < cfg.count ∧ 0 < st.visible_rows ∧
  0 ≤ st.index ∧ st.index < cfg.count ∧
  0 ≤ st.top ∧ st.top ≤ max 0 (cfg.count - st.visible_rows)

/-- Declarative scan order of a find-next/find-prev search: the rows one,
two, ... positions past the selected row in the scan direction, circularly;
for two or more rows this covers every row other than the selected one, and
for a single row the wrap-around lands the scan back on that row. -/
def scan_positions (count direction origin : Int) : List Int :=
  (List.range (max (count.toNat - 1) 1)).map fun k : Nat =>
    (origin + direction * ((k : Int) + 1)) % count

/-- Needle after one digit keystroke in windowed-history mode: a fresh
digit run replaces a non-numeric needle, and at most six digits
accumulate (further digits are dropped). -/
def numeric_digit_needle (st : St) (d : Nat) : List Nat :=
  let base := if st.needle_is_number then st.needle else []
  if base.length < 6 then base ++ [d] else base

/-! Concrete states and configurations used by the witnesses. -/

/-- A plain active engine state with the given cursor, top offset and
window height on an 80x30 screen. -/
def mkSt (idx top vis : Int) : St :=
  { index := idx, top := top, visible_rows := vis, screen_cols := 80,
    screen_rows := 30, needle := [], needle_is_number := false,
    input_clears_needle := false, override_title := none,
    has_override_title := false, prev_displayed := -1,
    active := true, res := Results.cleared }

/-- A plain 100-row configuration. -/
def cfg100 : Cfg :=
  { count := 100, wraparound := false, reverse := false, history_mode := false,
    win_history := false, has_columns := false,
    items := List.replicate 100 [], cols := [], infos := none,
    entries := List.replicate 100 [] }

/-- The three-item configuration of the incremental-search example:
"apple", "banana", "apricot". -/
def cfgFruit : Cfg :=
  { count := 3, wraparound := false, reverse := false, history_mode := false,
    win_history := false, has_columns := false,
    items := [[97, 112, 112, 108, 101], [98, 97, 110, 97, 110, 97],
      [97, 112, 114, 105, 99, 111, 116]],
    cols := [], infos := none, entries := [[], [], []] }

/-- Fruit state with the needle "ap" already typed, cursor on row 0. -/
def stFruit : St :=
  { mkSt 0 0 10 with needle := [97, 112] }

/-- Windowed-history configuration with per-row sequence numbers 1..42. -/
def cfgHist42 : Cfg :=
  { count := 42, wraparound := false, reverse := false, history_mode := true,
    win_history := true, has_columns := false,
    items := List.replicate 42 [], cols := [],
    infos := some ((List.range 42).map fun n => (n : Int)),
    entries := List.replicate 42 [] }

/-- Windowed-history configuration with per-row sequence numbers 40, 41, 42. -/
def cfgHist40 : Cfg :=
  { count := 3, wraparound := false, reverse := false, history_mode := true,
    win_history := true, has_columns := false,
    items := [[], [], []], cols := [], infos := some [39, 40, 41],
    entries := [[], [], []] }

/-- Five-row configuration with wraparound enabled. -/
def cfg5wrap : Cfg :=
  { count := 5, wraparound := true, reverse := false, history_mode := false,
    win_history := false, has_columns := false,
    items := List.replicate 5 [], cols := [], infos := none,
    entries := List.replicate 5 [] }

/-- Five-row configuration with wraparound disabled. -/
def cfg5clamp : Cfg := { cfg5wrap with wraparound := false }

/-- An inactive engine state, as found before an activation starts. -/
def stInact : St := { mkSt 0 0 0 with active := false }

/-- The seeded configuration of the three-entry demo activation. -/
def cfgDemo : Cfg :=
  { count := 3, wraparound := false, reverse := false, history_mode := false,
    win_history := false, has_columns := false,
    items := [[97], [98], [99]], cols := [], infos := none,
    entries := [[97], [98], [99]] }

/-- The engine state right after the demo activation renders its first
frame. -/
def stDemo : St :=
  { index := 0, top := 0, visible_rows := 10, screen_cols := 80,
    screen_rows := 30, needle := [], needle_is_number := false,
    input_clears_needle := false, override_title := none,
    has_override_title := false, prev_displayed := 0,
    active := true, res := Results.cleared }

/-! ## Viewport lemmas -/

theorem update_top_inv (cfg : Cfg) (st : St) (h : Pre cfg st) :
    Inv cfg (update_top cfg st) := by
  obtain ⟨h1, h2, h3, h4, h5, h6⟩ := h
  simp only [update_top, set_top, Inv]
  split_ifs <;> simp_all <;> omega

theorem update_display_inv (cfg : Cfg) (st : St) (ha : st.active = true)
    (h : Pre cfg st) : Inv cfg (update_display cfg st) := by
  have hu := update_top_inv cfg st h
  obtain ⟨h1, h2, h3, h4, h5, h6⟩ := h
  simp only [update_display, ha, h1, h2, true_and, if_pos, and_true]
  simpa [Inv] using hu

theorem update_display_fields (cfg : Cfg) (st : St) :
    (update_display cfg st).needle = st.needle ∧
    (update_display cfg st).active = st.active ∧
    (update_display cfg st).visible_rows = st.visible_rows := by
  simp only [update_display, update_top, set_top]
  split_ifs <;> simp_all

theorem advance_index_range (i d c : Int) (hd : d = 1 ∨ d = -1) (hc : 0 < c)
    (h0 : 0 ≤ i) (h1 : i < c) :
    0 ≤ advance_index i d c ∧ advance_index i d c < c := by
  simp only [advance_index]
  rcases hd with rfl | rfl <;> split_ifs <;> omega

theorem find_scan_range (cfg : Cfg) (needle : List Nat) (d origin : Int)
    (hd : d = 1 ∨ d = -1) (hc : 0 < cfg.count) :
    ∀ fuel i, 0 ≤ i → i < cfg.count →
      ∀ j, find_scan cfg needle d origin fuel i = some j →
        0 ≤ j ∧ j < cfg.count := by
  intro fuel
  induction fuel with
  | zero => intro i _ _ j h; simp [find_scan] at h
  | succ n ih =>
    intro i hi0 hi1 j h
    rcases advance_index_range i d cfg.count hd hc hi0 hi1 with ⟨a0, a1⟩
    simp only [find_scan] at h
    split_ifs at h <;>
      first
        | (injection h with h; omega)
        | omega
        | exact ih _ a0 a1 j h

theorem back_scan_range (cfg : Cfg) (needle : List Nat) (origin : Int)
    (hc : 0 < cfg.count) :
    ∀ fuel i, 0 ≤ i → i < cfg.count →
      ∀ j, back_scan cfg needle origin fuel i = some j →
        0 ≤ j ∧ j < cfg.count := by
  intro fuel
  induction fuel with
  | zero => intro i _ _ j h; simp [back_scan] at h
  | succ n ih =>
    intro i hi0 hi1 j h
    simp only [back_scan] at h
    split_ifs at h <;>
      first
        | (injection h with h; omega)
        | omega
        | exact ih _ (by omega) (by omega) j h

theorem post_switch_inv (cfg : Cfg) (st : St) (b : Bool) (h : Inv cfg st) :
    Inv cfg (post_switch cfg st b) := by
  simp only [post_switch]
  split_ifs <;> simpa [Inv] using h

theorem found_state_inv (cfg : Cfg) (st : St) (j : Int)
    (hc : 0 < cfg.count) (hv : 0 < st.visible_rows)
    (hj0 : 0 ≤ j) (hj1 : j < cfg.count)
    (ht0 : 0 ≤ st.top) (ht1 : st.top ≤ max 0 (cfg.count - st.visible_rows)) :
    Inv cfg (found_state cfg st j) := by
  simp only [found_state, Inv]
  split_ifs <;> simp_all <;> omega

theorem jump_state_inv (cfg : Cfg) (st : St) (j : Int)
    (hc : 0 < cfg.count) (hv : 0 < st.visible_rows)
    (hj0 : 0 ≤ j) (hj1 : j < cfg.count)
    (ht0 : 0 ≤ st.top) (ht1 : st.top ≤ max 0 (cfg.count - st.visible_rows)) :
    Inv cfg (jump_state cfg st j) := by
  simp only [jump_state, Inv]
  split_ifs <;> simp_all <;> omega

theorem found_state_fields (cfg : Cfg) (st : St) (j : Int) :
    (found_state cfg st j).active = st.active ∧
    (found_state cfg st j).visible_rows = st.visible_rows ∧
    (found_state cfg st j).needle = st.needle := by
  simp only [found_state]
  split_ifs <;> simp_all

theorem jump_state_fields (cfg : Cfg) (st : St) (j : Int) :
    (jump_state cfg st j).active = st.active ∧
    (jump_state cfg st j).visible_rows = st.visible_rows := by
  simp only [jump_state]
  split_ifs <;> simp_all

theorem find_direction_cases (cfg : Cfg) (b : Bool) :
    find_direction cfg b = 1 ∨ find_direction cfg b = -1 := by
  simp only [find_direction]
  split_ifs <;> simp

theorem find_start_range (cfg : Cfg) (st : St) (fb pa : Bool) (d : Int)
    (hd : d = 1 ∨ d = -1) (hc : 0 < cfg.count)
    (hi0 : 0 ≤ st.index) (hi1 : st.index < cfg.count) :
    0 ≤ find_start cfg st fb pa d ∧ find_start cfg st fb pa d < cfg.count := by
  simp only [find_start]
  split_ifs <;>
    first
      | exact advance_index_range _ d cfg.count hd hc (by omega) (by omega)
      | omega

theorem inv_pre (cfg : Cfg) (st : St) (h : Inv cfg st) : Pre cfg st := by
  obtain ⟨h1, h2, h3, h4, h5, h6, h7, h8⟩ := h
  exact ⟨h1, h2, h3, h4, h5, h6⟩

theorem do_find_inv (cfg : Cfg) (st : St) (a b c d : Bool)
    (ha : st.active = true) (h : Inv cfg st) :
    Inv cfg (do_find cfg st a b c d).1 := by
  have hp := inv_pre cfg st h
  obtain ⟨h1, h2, h3, h4, h5, h6⟩ := hp
  simp only [do_find]
  rcases hfs : find_scan cfg st.needle (find_direction cfg a) st.index
      cfg.count.toNat (find_start cfg st c b (find_direction cfg a)) with _ | j
  · split_ifs
    · exact update_display_inv cfg st ha ⟨h1, h2, h3, h4, h5, h6⟩
    · exact h
  · have hs := find_start_range cfg st c b (find_direction cfg a)
      (find_direction_cases cfg a) h1 h3 h4
    have hj := find_scan_range cfg st.needle (find_direction cfg a) st.index
      (find_direction_cases cfg a) h1 cfg.count.toNat _ hs.1 hs.2 j hfs
    have hfi := found_state_inv cfg st j h1 h2 hj.1 hj.2 h5 h6
    have hfe := found_state_fields cfg st j
    exact update_display_inv cfg (found_state cfg st j) (hfe.1.trans ha)
      (inv_pre cfg _ hfi)

theorem title_inv (cfg : Cfg) (st : St) (t : Option Title) (h : Inv cfg st) :
    Inv cfg { st with override_title := t } := by
  simpa [Inv] using h

theorem needle_inv (cfg : Cfg) (st : St) (n : List Nat) (h : Inv cfg st) :
    Inv cfg { st with needle := n } := by
  simpa [Inv] using h

theorem collect_char_fields (cfg : Cfg) (st : St) (r n : Bool) (c : Nat) :
    (collect_char cfg (st, r, n) c).1.index = st.index ∧
    (collect_char cfg (st, r, n) c).1.top = st.top ∧
    (collect_char cfg (st, r, n) c).1.visible_rows = st.visible_rows ∧
    (collect_char cfg (st, r, n) c).1.active = st.active := by
  simp only [collect_char]
  split_ifs <;> simp

theorem collect_fold_fields (cfg : Cfg) (keys : List Nat) :
    ∀ st : St, ∀ r n : Bool,
      (keys.foldl (collect_char cfg) (st, r, n)).1.index = st.index ∧
      (keys.foldl (collect_char cfg) (st, r, n)).1.top = st.top ∧
      (keys.foldl (collect_char cfg) (st, r, n)).1.visible_rows = st.visible_rows ∧
      (keys.foldl (collect_char cfg) (st, r, n)).1.active = st.active := by
  induction keys with
  | nil => intro st r n; exact ⟨rfl, rfl, rfl, rfl⟩
  | cons c rest ih =>
    intro st r n
    rcases hcc : collect_char cfg (st, r, n) c with ⟨st2, r2, n2⟩
    have hf := collect_char_fields cfg st r n c
    rw [hcc] at hf
    have hr := ih st2 r2 n2
    simp only [List.foldl_cons, hcc]
    exact ⟨hr.1.trans hf.1, hr.2.1.trans hf.2.1, hr.2.2.1.trans hf.2.2.1,
      hr.2.2.2.trans hf.2.2.2⟩

theorem collect_fold_inv (cfg : Cfg) (keys : List Nat) (st : St) (r n : Bool)
    (h : Inv cfg st) :
    Inv cfg (keys.foldl (collect_char cfg) (st, r, n)).1 := by
  obtain ⟨hfi, hft, hfv, hfa⟩ := collect_fold_fields cfg keys st r n
  obtain ⟨h1, h2, h3, h4, h5, h6, h7, h8⟩ := h
  exact ⟨h1, by omega, by omega, by omega, by omega, by omega, by omega, by omega⟩

theorem jump_branch_inv (cfg : Cfg) (st1 : St) (i : Int)
    (ha : st1.active = true) (h : Inv cfg st1) :
    Inv cfg (update_display cfg
      (if 0 ≤ i ∧ i < cfg.count then jump_state cfg st1 i else st1)) := by
  obtain ⟨h1, h2, h3, h4, h5, h6, h7, h8⟩ := h
  split_ifs with hg
  · refine update_display_inv cfg _ (((jump_state_fields cfg st1 i).1).trans ha) ?_
    exact inv_pre cfg _ (jump_state_inv cfg st1 i h1 h2 hg.1 hg.2 h5 h6)
  · exact update_display_inv cfg st1 ha ⟨h1, h2, h3, h4, h5, h6⟩

theorem update_needle_inv (cfg : Cfg) (st : St) (r fb nd : Bool)
    (ha : st.active = true) (h : Inv cfg st) :
    Inv cfg (update_needle cfg st r fb nd).1 := by
  obtain ⟨h1, h2, h3, h4, h5, h6, h7, h8⟩ := h
  have hInv : Inv cfg st := ⟨h1, h2, h3, h4, h5, h6, h7, h8⟩
  have hPre : Pre cfg st := ⟨h1, h2, h3, h4, h5, h6⟩
  simp only [update_needle]
  by_cases hw : cfg.win_history = true
  case neg =>
    rw [if_pos hw]
    exact do_find_inv cfg _ false false fb nd ha (title_inv cfg st _ hInv)
  case pos =>
    rw [if_neg (not_not_intro hw)]
    by_cases hn : st.needle_is_number = true
    case pos =>
      rw [if_pos hn]
      by_cases hne : st.needle = []
      case neg =>
        rw [if_pos hne]
        exact jump_branch_inv cfg _ _ ha (title_inv cfg st _ hInv)
      case pos =>
        rw [if_neg (not_not_intro hne)]
        by_cases hot : st.override_title.isSome = true
        · rw [if_pos hot]
          exact update_display_inv cfg _ ha (inv_pre cfg _ (title_inv cfg st none hInv))
        · rw [if_neg hot]
          by_cases hr : r = true
          · rw [if_pos hr]
            exact update_display_inv cfg st ha hPre
          · rw [if_neg hr]
            exact hInv
    case neg =>
      rw [if_neg hn]
      by_cases hne : st.needle = []
      case neg =>
        rw [if_pos hne]
        rcases hbs : back_scan cfg st.needle st.index cfg.count.toNat st.index
          with _ | j
        · show Inv cfg (if r = true then (update_display cfg st, true) else (st, false)).1
          by_cases hr : r = true
          · rw [if_pos hr]
            exact update_display_inv cfg st ha hPre
          · rw [if_neg hr]
            exact hInv
        · show Inv cfg (update_display cfg (found_state cfg st j))
          have hj := back_scan_range cfg st.needle st.index h1 cfg.count.toNat
            st.index h3 h4 j hbs
          refine update_display_inv cfg _ (((found_state_fields cfg st j).1).trans ha) ?_
          exact inv_pre cfg _ (found_state_inv cfg st j h1 h2 hj.1 hj.2 h5 h6)
      case pos =>
        rw [if_neg (not_not_intro hne)]
        by_cases hr : r = true
        · rw [if_pos hr]
          exact update_display_inv cfg st ha hPre
        · rw [if_neg hr]
          exact hInv

theorem pgdn_state_pre (cfg : Cfg) (st : St) (hp : Pre cfg st) :
    Pre cfg (pgdn_state cfg st) ∧ (pgdn_state cfg st).active = st.active := by
  obtain ⟨h1, h2, h3, h4, h5, h6⟩ := hp
  simp only [pgdn_state, set_top, Pre]
  split_ifs <;> simp_all <;> omega

theorem cancel_inv (cfg : Cfg) (st : St) (r : PopupResult) (h : Inv cfg st) :
    Inv cfg (cancel_act cfg st r) := by
  simpa [Inv, cancel_act] using h

theorem catchall_base_inv (cfg : Cfg) (keys : List Nat) (st0 : St)
    (ha0 : st0.active = true) (h0 : Inv cfg st0) :
    Inv cfg ((fun p : St × Bool × Bool =>
      update_needle cfg p.1 p.2.1 false p.2.2)
        (keys.foldl (collect_char cfg) (st0, false, false))).1 := by
  have hf := collect_fold_fields cfg keys st0 false false
  have hi := collect_fold_inv cfg keys st0 false false h0
  exact update_needle_inv cfg _ _ false _ (hf.2.2.2.trans ha0) hi

theorem on_input_inv (cfg : Cfg) (st : St) (ev : Ev)
    (ha : st.active = true) (h : Inv cfg st) :
    Inv cfg (on_input cfg st ev).1 := by
  have hpre := inv_pre cfg st h
  obtain ⟨h1, h2, h3, h4, h5, h6⟩ := hpre
  simp only [on_input]
  by_cases hvr : st.visible_rows ≤ 0
  · exact absurd hvr (by omega)
  rw [if_neg hvr]
  have hui : 0 ≤ up_index cfg st ∧ up_index cfg st < cfg.count := by
    simp only [up_index]; split_ifs <;> omega
  have hdi : 0 ≤ down_index cfg st ∧ down_index cfg st < cfg.count := by
    simp only [down_index]; split_ifs <;> omega
  have hgi : 0 ≤ pgup_index cfg st ∧ pgup_index cfg st < cfg.count := by
    simp only [pgup_index]; split_ifs <;> omega
  cases ev with
  | up =>
    refine post_switch_inv cfg _ true (update_display_inv cfg _ ha ?_)
    exact ⟨h1, h2, hui.1, hui.2, h5, h6⟩
  | down =>
    refine post_switch_inv cfg _ true (update_display_inv cfg _ ha ?_)
    exact ⟨h1, h2, hdi.1, hdi.2, h5, h6⟩
  | home =>
    refine post_switch_inv cfg _ true (update_display_inv cfg _ ha ?_)
    exact ⟨h1, h2, le_refl 0, h1, h5, h6⟩
  | endKey =>
    refine post_switch_inv cfg _ true (update_display_inv cfg _ ha ?_)
    refine ⟨h1, h2, ?_, ?_, h5, h6⟩
    · show (0 : Int) ≤ cfg.count - 1
      omega
    · show cfg.count - 1 < cfg.count
      omega
  | pgup =>
    by_cases hy : st.index > 0
    · rw [if_pos hy]
      refine post_switch_inv cfg _ true (update_display_inv cfg _ ha ?_)
      exact ⟨h1, h2, hgi.1, hgi.2, h5, h6⟩
    · rw [if_neg hy]
      exact post_switch_inv cfg st true h
  | pgdn =>
    by_cases hy : st.index < cfg.count - 1
    · rw [if_pos hy]
      have hps := pgdn_state_pre cfg st ⟨h1, h2, h3, h4, h5, h6⟩
      exact post_switch_inv cfg _ true
        (update_display_inv cfg _ (hps.2.trans ha) hps.1)
    · rw [if_neg hy]
      exact post_switch_inv cfg st true h
  | findnext =>
    show Inv cfg
      (if cfg.win_history = true then (st, false)
        else do_find cfg st false true false false).1
    by_cases hw : cfg.win_history = true
    · rw [if_pos hw]; exact h
    · rw [if_neg hw]; exact do_find_inv cfg st false true false false ha h
  | findprev =>
    show Inv cfg
      (if cfg.win_history = true then (st, false)
        else do_find cfg st true true false false).1
    by_cases hw : cfg.win_history = true
    · rw [if_pos hw]; exact h
    · rw [if_neg hw]; exact do_find_inv cfg st true true false false ha h
  | copy => exact h
  | escape => exact cancel_inv cfg st PopupResult.cancel h
  | enter => exact cancel_inv cfg st PopupResult.use h
  | insert => exact cancel_inv cfg st PopupResult.select h
  | backspace =>
    by_cases hbe : st.needle = []
    · rw [if_pos hbe]; exact h
    · rw [if_neg hbe]
      exact update_needle_inv cfg _ true _ true ha (needle_inv cfg st _ h)
  | catchall keys =>
    by_cases hicn : st.input_clears_needle = true
    · rw [if_pos hicn]
      exact catchall_base_inv cfg keys _ ha (by simpa [Inv] using h)
    · rw [if_neg hicn]
      exact catchall_base_inv cfg keys st ha h

theorem resize_inv (cfg : Cfg) (st : St) (c r : Int) (h : Inv cfg st) :
    Inv cfg (on_terminal_resize cfg st c r) := by
  simp only [on_terminal_resize, cancel_act]
  split_ifs <;> simpa [Inv] using h

theorem activate_ok_inv (buffer_ok macrodef wraparound : Bool)
    (entries : Option (List (List Nat))) (count index0 : Int)
    (reverse : Bool) (history_mode : Int) (infos : Option (List Int))
    (has_columns : Bool) (st0 : St) (cfg : Cfg) (st : St)
    (hidx : index0 < count)
    (heq : activate buffer_ok macrodef wraparound entries count index0 reverse
      history_mode infos has_columns st0 = ActOut.ok cfg st) :
    Inv cfg st := by
  simp only [activate] at heq
  split_ifs at heq with hb he hm hv hneg
  all_goals cases heq
  all_goals
    have hcount : 0 < count := by
      by_contra hh
      exact he (Or.inr (by omega))
  all_goals
    have hvis : 0 < update_layout (decide (history_mode ≠ 0)) (St.reset st0).screen_rows (St.reset st0).screen_cols := by
      omega
  all_goals refine update_display_inv _ _ rfl ?_
  all_goals refine ⟨hcount, hvis, ?_, ?_, ?_, ?_⟩
  all_goals dsimp only
  all_goals omega

theorem reach_inv (cfg : Cfg) (st : St) (h : Reach cfg st) : Inv cfg st := by
  induction h with
  | init buffer_ok macrodef wraparound entries count index0 reverse
      history_mode infos has_columns st0 cfg st hidx heq =>
    exact activate_ok_inv buffer_ok macrodef wraparound entries count index0
      reverse history_mode infos has_columns st0 cfg st hidx heq
  | step cfg st ev h ha ih => exact on_input_inv cfg st ev ha ih
  | resize cfg st c r h ih => exact resize_inv cfg st c r ih

/-! ## Field-preservation lemmas used by the claim theorems. -/

theorem update_display_index (cfg : Cfg) (st : St) :
    (update_display cfg st).index = st.index := by
  simp only [update_display, update_top, set_top]
  split_ifs <;> rfl

theorem update_display_needle (cfg : Cfg) (st : St) :
    (update_display cfg st).needle = st.needle := by
  simp only [update_display, update_top, set_top]
  split_ifs <;> rfl

theorem post_switch_index (cfg : Cfg) (st : St) (b : Bool) :
    (post_switch cfg st b).index = st.index := by
  simp only [post_switch]
  split_ifs <;> rfl

theorem found_state_index (cfg : Cfg) (st : St) (j : Int) :
    (found_state cfg st j).index = j := by
  simp only [found_state]
  split_ifs <;> rfl

theorem update_top_id (cfg : Cfg) (st : St) (h : Inv cfg st) :
    update_top cfg st = st := by
  obtain ⟨h1, h2, h3, h4, h5, h6, h7, h8⟩ := h
  simp only [update_top, set_top]
  split_ifs with ha hb hc <;> first | rfl | omega

theorem update_display_eq (cfg : Cfg) (st : St) (ha : st.active = true)
    (h : Inv cfg st) :
    update_display cfg st =
      { st with
        has_override_title := st.override_title.isSome,
        prev_displayed := st.index } := by
  obtain ⟨h1, h2, h3, h4, h5, h6, h7, h8⟩ := h
  simp only [update_display, update_top_id cfg st ⟨h1, h2, h3, h4, h5, h6, h7, h8⟩]
  rw [if_pos (show st.visible_rows > 0 by omega),
    if_pos (show st.active = true ∧ cfg.count > 0 from ⟨ha, h1⟩)]

/-! ## Claim theorems. -/

/-- C2: in every reachable engine state (the row count is positive
throughout an activation) the cursor index stays inside `[0, count)`, the
top offset stays inside `[0, max 0 (count - visible_rows)]`, and after any
committed navigation the cursor lies inside the visible window
`[top, top + visible_rows)`. -/
theorem C2_reachable_viewport_invariant (cfg : Cfg) (st : St)
    (h : Reach cfg st) :
    (0 < cfg.count → 0 ≤ st.index ∧ st.index < cfg.count) ∧
    0 ≤ st.top ∧ st.top ≤ max 0 (cfg.count - st.visible_rows) ∧
    st.top ≤ st.index ∧ st.index < st.top + st.visible_rows := by
  obtain ⟨h1, h2, h3, h4, h5, h6, h7, h8⟩ := reach_inv cfg st h
  exact ⟨fun _ => ⟨h3, h4⟩, h5, h6, h7, h8⟩

/-- Witness for C2 on a concrete three-entry activation. -/
theorem C2_witness :
    (0 < cfgDemo.count → 0 ≤ stDemo.index ∧ stDemo.index < cfgDemo.count) ∧
    0 ≤ stDemo.top ∧ stDemo.top ≤ max 0 (cfgDemo.count - stDemo.visible_rows) ∧
    stDemo.top ≤ stDemo.index ∧ stDemo.index < stDemo.top + stDemo.visible_rows :=
  C2_reachable_viewport_invariant cfgDemo stDemo
    (Reach.init true false false (some [[97], [98], [99]]) 3 0 false 0 none
      false stInact cfgDemo stDemo (by decide) (by decide))

/-- C7: moving up subtracts one from the index, wrapping to the last row
(wraparound enabled) or clamping at the first row (disabled) when the index
is 0; moving down adds one, wrapping to the first row or clamping at the
last row from index `count - 1`; in particular with five rows, up from 0
wraps to 4 and down from 4 wraps to 0 when enabled, and both clamp when
disabled. -/
theorem C7_move_wraparound (cfg : Cfg) (st : St) (ha : st.active = true)
    (h : Inv cfg st) :
    ((on_input cfg st Ev.up).1.index =
      (if st.index = 0 then (if cfg.wraparound then cfg.count - 1 else 0)
        else st.index - 1)) ∧
    ((on_input cfg st Ev.down).1.index =
      (if st.index = cfg.count - 1 then (if cfg.wraparound then 0 else cfg.count - 1)
        else st.index + 1)) ∧
    (on_input cfg5wrap (mkSt 0 0 10) Ev.up).1.index = 4 ∧
    (on_input cfg5wrap (mkSt 4 0 10) Ev.down).1.index = 0 ∧
    (on_input cfg5clamp (mkSt 0 0 10) Ev.up).1.index = 0 ∧
    (on_input cfg5clamp (mkSt 4 0 10) Ev.down).1.index = 4 := by
  obtain ⟨h1, h2, h3, h4, h5, h6, h7, h8⟩ := h
  refine ⟨?_, ?_, by decide, by decide, by decide, by decide⟩
  · show (on_input cfg st Ev.up).1.index = _
    simp only [on_input]
    rw [if_neg (by omega)]
    show (post_switch cfg (update_display cfg { st with index := up_index cfg st }) true).index = _
    rw [post_switch_index, update_display_index]
    show up_index cfg st = _
    simp only [up_index]
    split_ifs <;> omega
  · show (on_input cfg st Ev.down).1.index = _
    simp only [on_input]
    rw [if_neg (by omega)]
    show (post_switch cfg (update_display cfg { st with index := down_index cfg st }) true).index = _
    rw [post_switch_index, update_display_index]
    show down_index cfg st = _
    simp only [down_index]
    split_ifs <;> omega

/-- Witness for C7 at a concrete five-row state. -/
theorem C7_witness :
    ((on_input cfg5wrap (mkSt 2 0 10) Ev.up).1.index =
      (if (mkSt 2 0 10).index = 0 then (if cfg5wrap.wraparound then cfg5wrap.count - 1 else 0)
        else (mkSt 2 0 10).index - 1)) ∧
    ((on_input cfg5wrap (mkSt 2 0 10) Ev.down).1.index =
      (if (mkSt 2 0 10).index = cfg5wrap.count - 1 then
        (if cfg5wrap.wraparound then 0 else cfg5wrap.count - 1)
        else (mkSt 2 0 10).index + 1)) ∧
    (on_input cfg5wrap (mkSt 0 0 10) Ev.up).1.index = 4 ∧
    (on_input cfg5wrap (mkSt 4 0 10) Ev.down).1.index = 0 ∧
    (on_input cfg5clamp (mkSt 0 0 10) Ev.up).1.index = 0 ∧
    (on_input cfg5clamp (mkSt 4 0 10) Ev.down).1.index = 4 :=
  C7_move_wraparound cfg5wrap (mkSt 2 0 10) rfl
    (by refine ⟨?_, ?_, ?_, ?_, ?_, ?_, ?_, ?_⟩ <;> decide)

/-- C9: a terminal-resize notification during an active activation
immediately deactivates the engine with result kind `cancel` (not `error`),
carrying no index and no text, and does not recompute the visible-row
geometry nor feed anything into the normal event handling (index, top and
needle are untouched). -/
theorem C9_resize_cancels (cfg : Cfg) (st : St) (cols rows : Int)
    (ha : st.active = true) :
    (on_terminal_resize cfg st cols rows).active = false ∧
    (on_terminal_resize cfg st cols rows).res =
      { result := PopupResult.cancel, rindex := none, rtext := none } ∧
    PopupResult.cancel ≠ PopupResult.error ∧
    (on_terminal_resize cfg st cols rows).visible_rows = st.visible_rows ∧
    (on_terminal_resize cfg st cols rows).index = st.index ∧
    (on_terminal_resize cfg st cols rows).top = st.top ∧
    (on_terminal_resize cfg st cols rows).needle = st.needle := by
  simp only [on_terminal_resize, cancel_act, ha, Results.cleared]
  norm_num
  exact ⟨fun h => absurd h (by decide), by decide⟩

/-- Witness for C9 at a concrete active state. -/
theorem C9_witness :
    (on_terminal_resize cfg100 (mkSt 5 0 10) 100 40).active = false ∧
    (on_terminal_resize cfg100 (mkSt 5 0 10) 100 40).res =
      { result := PopupResult.cancel, rindex := none, rtext := none } ∧
    PopupResult.cancel ≠ PopupResult.error ∧
    (on_terminal_resize cfg100 (mkSt 5 0 10) 100 40).visible_rows = (mkSt 5 0 10).visible_rows ∧
    (on_terminal_resize cfg100 (mkSt 5 0 10) 100 40).index = (mkSt 5 0 10).index ∧
    (on_terminal_resize cfg100 (mkSt 5 0 10) 100 40).top = (mkSt 5 0 10).top ∧
    (on_terminal_resize cfg100 (mkSt 5 0 10) 100 40).needle = (mkSt 5 0 10).needle :=
  C9_resize_cancels cfg100 (mkSt 5 0 10) 100 40 rfl

/-- C10: in an active state with an empty search needle, backspace is a
complete no-op in both needle modes: the state (needle, index, top, titles,
one-shot flags and everything else) is returned unchanged and no redraw is
triggered. -/
theorem C10_backspace_empty_noop (cfg : Cfg) (st : St)
    (ha : st.active = true) (hv : 0 < st.visible_rows) (hn : st.needle = []) :
    on_input cfg st Ev.backspace = (st, false) := by
  simp only [on_input]
  rw [if_neg (by omega)]
  show (if st.needle = [] then (st, false) else _) = (st, false)
  rw [if_pos hn]

/-- Witness for C10: backspace with an empty needle at a concrete state. -/
theorem C10_witness : on_input cfg100 (mkSt 5 0 10) Ev.backspace = (mkSt 5 0 10, false) :=
  C10_backspace_empty_noop cfg100 (mkSt 5 0 10) rfl (by decide) rfl

/-- C5: page navigation uses page size `min(count, visible_rows)`.
Page-down snaps to the last row of the current page unless the cursor is
already there, in which case it advances by a full page, clamped to the
last row; at the last row of the list it is a no-op.  Page-up is the mirror
at the first row of the page.  In particular with count = 100,
visible_rows = 10, top = 0, index = 5, one page-down yields index 9 (top
still 0) and a second page-down yields index 19 with top 10. -/
theorem C5_page_navigation (cfg : Cfg) (st : St) (ha : st.active = true)
    (h : Inv cfg st) :
    ((st.index < cfg.count - 1 →
       (on_input cfg st Ev.pgdn).1.index =
         min (cfg.count - 1)
           (if st.index = st.top + min cfg.count st.visible_rows - 1
             then st.index + min cfg.count st.visible_rows
             else st.top + min cfg.count st.visible_rows - 1)) ∧
     (st.index = cfg.count - 1 → (on_input cfg st Ev.pgdn).1.index = st.index) ∧
     (0 < st.index →
       (on_input cfg st Ev.pgup).1.index =
         max 0
           (if st.index = st.top then st.index - min cfg.count st.visible_rows
             else st.top)) ∧
     (st.index = 0 → (on_input cfg st Ev.pgup).1.index = st.index)) ∧
    (on_input cfg100 (mkSt 5 0 10) Ev.pgdn).1.index = 9 ∧
    (on_input cfg100 (mkSt 5 0 10) Ev.pgdn).1.top = 0 ∧
    (on_input cfg100 ((on_input cfg100 (mkSt 5 0 10) Ev.pgdn).1) Ev.pgdn).1.index = 19 ∧
    (on_input cfg100 ((on_input cfg100 (mkSt 5 0 10) Ev.pgdn).1) Ev.pgdn).1.top = 10 := by
  obtain ⟨h1, h2, h3, h4, h5, h6, h7, h8⟩ := h
  refine ⟨⟨?_, ?_, ?_, ?_⟩, by decide, by decide, by decide, by decide⟩
  · intro hy
    show (on_input cfg st Ev.pgdn).1.index = _
    simp only [on_input]
    rw [if_neg (by omega)]
    show (if st.index < cfg.count - 1 then
        (post_switch cfg (update_display cfg (pgdn_state cfg st)) true, true)
      else (post_switch cfg st true, false)).1.index = _
    rw [if_pos hy]
    show (post_switch cfg (update_display cfg (pgdn_state cfg st)) true).index = _
    rw [post_switch_index, update_display_index]
    simp only [pgdn_state, set_top]
    split_ifs <;> dsimp only <;> omega
  · intro hy
    show (on_input cfg st Ev.pgdn).1.index = _
    simp only [on_input]
    rw [if_neg (by omega)]
    show (if st.index < cfg.count - 1 then
        (post_switch cfg (update_display cfg (pgdn_state cfg st)) true, true)
      else (post_switch cfg st true, false)).1.index = _
    rw [if_neg (by omega)]
    exact post_switch_index cfg st true
  · intro hy
    show (on_input cfg st Ev.pgup).1.index = _
    simp only [on_input]
    rw [if_neg (by omega)]
    show (if st.index > 0 then
        (post_switch cfg (update_display cfg { st with index := pgup_index cfg st }) true, true)
      else (post_switch cfg st true, false)).1.index = _
    rw [if_pos hy]
    show (post_switch cfg (update_display cfg { st with index := pgup_index cfg st }) true).index = _
    rw [post_switch_index, update_display_index]
    show pgup_index cfg st = _
    simp only [pgup_index]
  · intro hy
    show (on_input cfg st Ev.pgup).1.index = _
    simp only [on_input]
    rw [if_neg (by omega)]
    show (if st.index > 0 then
        (post_switch cfg (update_display cfg { st with index := pgup_index cfg st }) true, true)
      else (post_switch cfg st true, false)).1.index = _
    rw [if_neg (by omega)]
    exact post_switch_index cfg st true

/-- Witness for C5 at a concrete mid-list state. -/
theorem C5_witness :
    (((mkSt 5 0 10).index < cfg100.count - 1 →
       (on_input cfg100 (mkSt 5 0 10) Ev.pgdn).1.index =
         min (cfg100.count - 1)
           (if (mkSt 5 0 10).index = (mkSt 5 0 10).top + min cfg100.count (mkSt 5 0 10).visible_rows - 1
             then (mkSt 5 0 10).index + min cfg100.count (mkSt 5 0 10).visible_rows
             else (mkSt 5 0 10).top + min cfg100.count (mkSt 5 0 10).visible_rows - 1)) ∧
     ((mkSt 5 0 10).index = cfg100.count - 1 →
       (on_input cfg100 (mkSt 5 0 10) Ev.pgdn).1.index = (mkSt 5 0 10).index) ∧
     (0 < (mkSt 5 0 10).index →
       (on_input cfg100 (mkSt 5 0 10) Ev.pgup).1.index =
         max 0
           (if (mkSt 5 0 10).index = (mkSt 5 0 10).top
             then (mkSt 5 0 10).index - min cfg100.count (mkSt 5 0 10).visible_rows
             else (mkSt 5 0 10).top)) ∧
     ((mkSt 5 0 10).index = 0 →
       (on_input cfg100 (mkSt 5 0 10) Ev.pgup).1.index = (mkSt 5 0 10).index)) ∧
    (on_input cfg100 (mkSt 5 0 10) Ev.pgdn).1.index = 9 ∧
    (on_input cfg100 (mkSt 5 0 10) Ev.pgdn).1.top = 0 ∧
    (on_input cfg100 ((on_input cfg100 (mkSt 5 0 10) Ev.pgdn).1) Ev.pgdn).1.index = 19 ∧
    (on_input cfg100 ((on_input cfg100 (mkSt 5 0 10) Ev.pgdn).1) Ev.pgdn).1.top = 10 :=
  C5_page_navigation cfg100 (mkSt 5 0 10) rfl
    (by refine ⟨?_, ?_, ?_, ?_, ?_, ?_, ?_, ?_⟩ <;> decide)

/-- C4: when entries is null or count is not positive, or the host is
recording a macro, or the computed visible-row count is not positive, the
activation returns the `error` result immediately, with no index and no
text, leaving the per-activation state reset (and no configuration is
seeded, so no UI can be drawn). -/
theorem C4_activate_error_paths (buffer_ok macrodef wraparound : Bool)
    (entries : Option (List (List Nat))) (count index0 : Int)
    (reverse : Bool) (history_mode : Int) (infos : Option (List Int))
    (has_columns : Bool) (st0 : St) (hact : st0.active = false)
    (hfail : entries.isNone = true ∨ count ≤ 0 ∨ macrodef = true ∨
      update_layout (history_mode ≠ 0) (St.reset st0).screen_rows
        (St.reset st0).screen_cols ≤ 0) :
    ∃ stE : St,
      activate buffer_ok macrodef wraparound entries count index0 reverse
          history_mode infos has_columns st0 =
        ActOut.err { result := PopupResult.error, rindex := none, rtext := none } stE ∧
      stE.active = false ∧ stE.index = 0 ∧ stE.top = 0 ∧
      stE.visible_rows ≤ 0 ∧ stE.needle = [] ∧
      stE.needle_is_number = false ∧ stE.input_clears_needle = false ∧
      stE.override_title = none ∧ stE.prev_displayed = -1 ∧
      stE.res = Results.cleared := by
  simp only [activate]
  by_cases hb : buffer_ok = true
  case neg =>
    rw [if_pos (show ¬buffer_ok = true from hb)]
    exact ⟨_, rfl, hact, rfl, rfl, le_refl 0, rfl, rfl, rfl, rfl, rfl, rfl⟩
  case pos =>
    rw [if_neg (not_not_intro hb)]
    by_cases he : (entries.isNone = true ∨ count ≤ 0)
    · rw [if_pos he]
      exact ⟨_, rfl, hact, rfl, rfl, le_refl 0, rfl, rfl, rfl, rfl, rfl, rfl⟩
    · rw [if_neg he]
      by_cases hm2 : macrodef = true
      · rw [if_pos hm2]
        exact ⟨_, rfl, hact, rfl, rfl, le_refl 0, rfl, rfl, rfl, rfl, rfl, rfl⟩
      · rw [if_neg hm2]
        have hv : update_layout (history_mode ≠ 0) (St.reset st0).screen_rows
            (St.reset st0).screen_cols ≤ 0 := by
          rcases hfail with hf | hf | hf | hf
          · exact absurd (Or.inl hf) he
          · exact absurd (Or.inr hf) he
          · exact absurd hf hm2
          · exact hf
        rw [if_pos hv]
        exact ⟨_, rfl, hact, rfl, rfl, hv, rfl, rfl, rfl, rfl, rfl, rfl⟩

/-- Witness for C4: activation with a null entry array fails with `error`
and a reset state. -/
theorem C4_witness :
    ∃ stE : St,
      activate true false false none 5 0 false 0 none false stInact =
        ActOut.err { result := PopupResult.error, rindex := none, rtext := none } stE ∧
      stE.active = false ∧ stE.index = 0 ∧ stE.top = 0 ∧
      stE.visible_rows ≤ 0 ∧ stE.needle = [] ∧
      stE.needle_is_number = false ∧ stE.input_clears_needle = false ∧
      stE.override_title = none ∧ stE.prev_displayed = -1 ∧
      stE.res = Results.cleared :=
  C4_activate_error_paths true false false none 5 0 false 0 none false stInact
    rfl (Or.inl rfl)

/-! ## C1: limit_cells. -/

theorem clink_wcwidth_nonneg (c : Nat) : 0 ≤ clink_wcwidth c := by
  simp only [clink_wcwidth]
  split_ifs <;> omega

theorem cellWidth_cons (c : Nat) (t : List Nat) :
    cellWidth (c :: t) = clink_wcwidth c + cellWidth t := by
  simp [cellWidth]

theorem byteLen_cons (c : Nat) (t : List Nat) :
    byteLen (c :: t) = utf8Len c + byteLen t := by
  simp [byteLen]

theorem cellWidth_nonneg (s : List Nat) : 0 ≤ cellWidth s := by
  induction s with
  | nil => simp [cellWidth]
  | cons c t ih =>
    have := clink_wcwidth_nonneg c
    rw [cellWidth_cons]
    omega

theorem limit_cells_go_spec (limit : Int) :
    ∀ (s : List Nat) (cells : Int) (bytes : Nat),
      ∃ k, k ≤ s.length ∧
        (limit_cells_go limit s cells bytes).1 = bytes + byteLen (s.take k) ∧
        (limit_cells_go limit s cells bytes).2 = cells + cellWidth (s.take k) ∧
        (k < s.length → cells + cellWidth (s.take k) ≥ limit) ∧
        (∀ j, 1 ≤ j → j < k → cells + cellWidth (s.take j) < limit) ∧
        (cells + cellWidth s < limit → k = s.length) := by
  intro s
  induction s with
  | nil =>
    intro cells bytes
    refine ⟨0, le_refl 0, ?_, ?_, ?_, ?_, ?_⟩ <;>
      simp [limit_cells_go, byteLen, cellWidth]
  | cons c t ih =>
    intro cells bytes
    by_cases hbr : cells + clink_wcwidth c ≥ limit
    · refine ⟨1, by simp, ?_, ?_, ?_, ?_, ?_⟩
      · show (limit_cells_go limit (c :: t) cells bytes).1 = _
        simp only [limit_cells_go]
        rw [if_pos hbr]
        simp [byteLen]
      · show (limit_cells_go limit (c :: t) cells bytes).2 = _
        simp only [limit_cells_go]
        rw [if_pos hbr]
        simp [cellWidth]
      · intro _
        simpa [cellWidth] using hbr
      · intro j hj1 hj2
        omega
      · intro hlt
        rw [cellWidth_cons] at hlt
        have := cellWidth_nonneg t
        omega
    · obtain ⟨k0, hk0, e1, e2, p3, p4, p5⟩ := ih (cells + clink_wcwidth c) (bytes + utf8Len c)
      have hgo1 : (limit_cells_go limit (c :: t) cells bytes) =
          limit_cells_go limit t (cells + clink_wcwidth c) (bytes + utf8Len c) := by
        simp only [limit_cells_go]
        rw [if_neg hbr]
      refine ⟨k0 + 1, by simpa using Nat.succ_le_succ hk0, ?_, ?_, ?_, ?_, ?_⟩
      · rw [hgo1, e1, List.take_succ_cons, byteLen_cons]
        omega
      · rw [hgo1, e2, List.take_succ_cons, cellWidth_cons]
        ring
      · intro hk
        rw [List.take_succ_cons, cellWidth_cons]
        have := p3 (by simpa using Nat.lt_of_succ_lt_succ hk)
        omega
      · intro j hj1 hj2
        cases j with
        | zero => omega
        | succ j0 =>
          rw [List.take_succ_cons, cellWidth_cons]
          rcases Nat.eq_zero_or_pos j0 with hz | hp
          · subst hz
            have hw : cellWidth (List.take 0 t) = 0 := by simp [cellWidth]
            rw [hw]
            omega
          · have := p4 j0 hp (by omega)
            omega
      · intro hlt
        rw [cellWidth_cons] at hlt
        have h5 := p5 (by omega)
        simp only [List.length_cons]
        omega

/-- C1 counterexample: the reported cell count of `limit_cells` can exceed
the cell budget.  A wide (two-cell) character consumed at a budget of one
cell yields a count of 2 > 1, and even a plain ASCII character consumed at
budget 0 yields 1 > 0 — the loop breaks only after consuming the character
that reaches or crosses the limit. -/
theorem C1_counterexample :
    (limit_cells [0x4E00] 1).2 = 2 ∧ ¬((limit_cells [0x4E00] 1).2 ≤ 1) ∧
    clink_wcwidth 0x4E00 = 2 ∧
    (limit_cells [0x61] 0).2 = 1 ∧ ¬((limit_cells [0x61] 0).2 ≤ 0) := by
  decide

/-- C1 (amended): `limit_cells` returns a byte-prefix aligned on character
boundaries (never splitting a multi-byte or multi-cell character) and
reports its exact cell count; every non-empty proper stage of the consumed
prefix that is followed by more consumed characters has width strictly
below the budget (for a positive budget this holds for every proper
stage), so the count can exceed the budget only through the final consumed
character; when consumption stops before the end of the string the count
has reached the budget, and for a string whose total width is below the
budget the whole string is consumed and the count equals its full
width. -/
theorem C1_limit_cells_amended (s : List Nat) (limit : Int) :
    ∃ k, k ≤ s.length ∧
      (limit_cells s limit).1 = byteLen (s.take k) ∧
      (limit_cells s limit).2 = cellWidth (s.take k) ∧
      (k < s.length → cellWidth (s.take k) ≥ limit) ∧
      (∀ j, 1 ≤ j → j < k → cellWidth (s.take j) < limit) ∧
      (0 < limit → ∀ j, j < k → cellWidth (s.take j) < limit) ∧
      (cellWidth s < limit → k = s.length) := by
  obtain ⟨k, hk, e1, e2, p3, p4, p5⟩ := limit_cells_go_spec limit s 0 0
  refine ⟨k, hk, ?_, ?_, ?_, ?_, ?_, ?_⟩
  · simpa [limit_cells] using e1
  · simpa [limit_cells] using e2
  · intro hkl
    have := p3 hkl
    omega
  · intro j hj1 hj2
    have := p4 j hj1 hj2
    omega
  · intro hpos j hj
    rcases Nat.eq_zero_or_pos j with hz | hp
    · subst hz
      simpa [cellWidth]
    · have := p4 j hp hj
      omega
  · exact fun hlt => p5 (by omega)

/-- Witness for C1 at a concrete short string and budget. -/
theorem C1_witness :
    ∃ k, k ≤ ([97, 98] : List Nat).length ∧
      (limit_cells [97, 98] 5).1 = byteLen (List.take k [97, 98]) ∧
      (limit_cells [97, 98] 5).2 = cellWidth (List.take k [97, 98]) ∧
      (k < ([97, 98] : List Nat).length → cellWidth (List.take k [97, 98]) ≥ 5) ∧
      (∀ j, 1 ≤ j → j < k → cellWidth (List.take j [97, 98]) < 5) ∧
      (0 < (5 : Int) → ∀ j, j < k → cellWidth (List.take j [97, 98]) < 5) ∧
      (cellWidth [97, 98] < 5 → k = ([97, 98] : List Nat).length) :=
  C1_limit_cells_amended [97, 98] 5

/-! ## C6: the find-next/find-prev scan. -/

theorem advance_emod (i d c : Int) (hd : d = 1 ∨ d = -1) (hc : 0 < c)
    (h0 : 0 ≤ i) (h1 : i < c) : advance_index i d c = (i + d) % c := by
  rcases hd with rfl | rfl <;> simp only [advance_index]
  · rw [if_neg (by omega : ¬(1 : Int) < 0)]
    split_ifs with h
    · have he : i + 1 = c := by omega
      rw [he, Int.emod_self]
    · rw [Int.emod_eq_of_lt (by omega) (by omega)]
  · rw [if_pos (by omega : (-1 : Int) < 0)]
    split_ifs with h
    · have hi : i = 0 := by omega
      subst hi
      rw [show ((0 : Int) + -1) = (c - 1) + c * (-1) by ring,
        Int.add_mul_emod_self_left, Int.emod_eq_of_lt (by omega) (by omega)]
    · rw [show i + (-1 : Int) = i - 1 by ring,
        Int.emod_eq_of_lt (by omega) (by omega)]

theorem pos_step (cfg : Cfg) (d origin : Int) (m : Nat)
    (hd : d = 1 ∨ d = -1) (hc : 0 < cfg.count) :
    advance_index ((origin + d * ((m : Int) + 1)) % cfg.count) d cfg.count =
      (origin + d * (((m : Int) + 1) + 1)) % cfg.count := by
  have h0 : 0 ≤ (origin + d * ((m : Int) + 1)) % cfg.count :=
    Int.emod_nonneg _ (by omega)
  have h1 : (origin + d * ((m : Int) + 1)) % cfg.count < cfg.count :=
    Int.emod_lt_of_pos _ hc
  rw [advance_emod _ d _ hd hc h0 h1, Int.emod_add_emod]
  congr 1
  ring

theorem pos_eq_origin_iff (cfg : Cfg) (d origin j : Int)
    (hd : d = 1 ∨ d = -1) (hc : 0 < cfg.count)
    (ho0 : 0 ≤ origin) (ho1 : origin < cfg.count) :
    (origin + d * j) % cfg.count = origin ↔ cfg.count ∣ j := by
  constructor
  · intro h
    have h2 : (origin + d * j) % cfg.count = origin % cfg.count := by
      rw [h, Int.emod_eq_of_lt ho0 ho1]
    rw [Int.emod_eq_emod_iff_emod_sub_eq_zero,
      show origin + d * j - origin = d * j by ring,
      ← Int.dvd_iff_emod_eq_zero] at h2
    rcases hd with rfl | rfl
    · simpa using h2
    · rw [show (-1 : Int) * j = -j by ring, dvd_neg] at h2
      exact h2
  · rintro ⟨e, rfl⟩
    rw [show origin + d * (cfg.count * e) = origin + cfg.count * (d * e) by ring,
      Int.add_mul_emod_self_left]
    exact Int.emod_eq_of_lt ho0 ho1

theorem find_scan_eq_find (cfg : Cfg) (needle : List Nat) (d origin : Int)
    (hd : d = 1 ∨ d = -1) (hc : 0 < cfg.count)
    (ho0 : 0 ≤ origin) (ho1 : origin < cfg.count) :
    ∀ f m : Nat, f + m = cfg.count.toNat → m < max (cfg.count.toNat - 1) 1 →
      find_scan cfg needle d origin f ((origin + d * ((m : Int) + 1)) % cfg.count) =
        ((List.range (max (cfg.count.toNat - 1) 1 - m)).map
          (fun k => (origin + d * (((m + k : Nat) : Int) + 1)) % cfg.count)).find?
          (fun p => row_match cfg needle p) := by
  intro f
  induction f with
  | zero =>
    intro m hfm hm
    omega
  | succ f ih =>
    intro m hfm hm
    have hps := pos_step cfg d origin m hd hc
    have hlen : max (cfg.count.toNat - 1) 1 - m =
        (max (cfg.count.toNat - 1) 1 - (m + 1)) + 1 := by omega
    rw [hlen, List.range_succ_eq_map, List.map_cons]
    simp only [find_scan]
    by_cases hmatch :
      row_match cfg needle ((origin + d * ((m : Int) + 1)) % cfg.count) = true
    · rw [if_pos hmatch, List.find?_cons_of_pos _ (by simpa using hmatch)]
      simp
    · rw [if_neg hmatch, List.find?_cons_of_neg _ (by simpa using hmatch), hps]
      by_cases horig :
        (origin + d * (((m : Int) + 1) + 1)) % cfg.count = origin
      · rw [if_pos horig]
        have hdvd : cfg.count ∣ ((m : Int) + 2) :=
          (pos_eq_origin_iff cfg d origin ((m : Int) + 2) hd hc ho0 ho1).mp
            (by rw [show (m : Int) + 2 = ((m : Int) + 1) + 1 by ring]; exact horig)
        have hcle : cfg.count ≤ (m : Int) + 2 := Int.le_of_dvd (by omega) hdvd
        rw [show max (cfg.count.toNat - 1) 1 - (m + 1) = 0 by omega]
        simp
      · rw [if_neg horig]
        have hlt : m + 1 < max (cfg.count.toNat - 1) 1 := by
          by_contra hcon
          refine horig ?_
          refine (pos_eq_origin_iff cfg d origin (((m : Int) + 1) + 1) hd hc ho0 ho1).mpr ?_
          rcases Nat.lt_or_ge cfg.count.toNat 2 with hsmall | hbig
          · have hc1 : cfg.count = 1 := by omega
            rw [hc1]
            exact one_dvd _
          · have hm2 : (m : Int) + 1 + 1 = cfg.count := by omega
            rw [hm2]
        have hih := ih (m + 1) (by omega) hlt
        rw [List.map_map]
        have hfun : ∀ k ∈ List.range (max (cfg.count.toNat - 1) 1 - (m + 1)),
            ((fun k => (origin + d * (((m + k : Nat) : Int) + 1)) % cfg.count) ∘
              Nat.succ) k =
            (fun k => (origin + d * (((m + 1 + k : Nat) : Int) + 1)) % cfg.count) k := by
          intro k _
          simp only [Function.comp]
          congr 2
          push_cast
          ring
        rw [List.map_congr_left hfun]
        rw [show (origin + d * (((m : Int) + 1) + 1)) % cfg.count =
            (origin + d * (((m + 1 : Nat) : Int) + 1)) % cfg.count by push_cast; ring_nf]
        exact hih

theorem find_start_next (cfg : Cfg) (st : St) (d : Int) (hd : d = 1 ∨ d = -1)
    (hc : 0 < cfg.count) (h0 : 0 ≤ st.index) (h1 : st.index < cfg.count) :
    find_start cfg st false true d =
      (st.index + d * ((((0 : Nat)) : Int) + 1)) % cfg.count := by
  have hred : find_start cfg st false true d = advance_index st.index d cfg.count := by
    simp [find_start]
  rw [hred, advance_emod _ _ _ hd hc h0 h1]
  congr 1
  push_cast
  ring

theorem do_find_characterization (cfg : Cfg) (st : St) (b : Bool)
    (ha : st.active = true) (h : Inv cfg st) :
    ((scan_positions cfg.count (find_direction cfg b) st.index).find?
        (fun p => row_match cfg st.needle p) = none →
      do_find cfg st b true false false = (st, false)) ∧
    (∀ j, (scan_positions cfg.count (find_direction cfg b) st.index).find?
        (fun p => row_match cfg st.needle p) = some j →
      (do_find cfg st b true false false).1.index = j) := by
  obtain ⟨h1, h2, h3, h4, h5, h6, h7, h8⟩ := h
  have hd := find_direction_cases cfg b
  have hkey : find_scan cfg st.needle (find_direction cfg b) st.index
      cfg.count.toNat (find_start cfg st false true (find_direction cfg b)) =
      (scan_positions cfg.count (find_direction cfg b) st.index).find?
        (fun p => row_match cfg st.needle p) := by
    rw [find_start_next cfg st _ hd h1 h3 h4]
    rw [find_scan_eq_find cfg st.needle (find_direction cfg b) st.index hd h1 h3 h4
      cfg.count.toNat 0 (by omega) (by omega)]
    congr 1
    simp only [Nat.sub_zero, scan_positions]
    refine List.map_congr_left ?_
    intro k _
    congr 2
    push_cast
    ring
  constructor
  · intro hnone
    simp only [do_find]
    rw [hkey, hnone]
    rfl
  · intro j hsome
    simp only [do_find]
    rw [hkey, hsome]
    show (update_display cfg (found_state cfg st j)).index = j
    rw [update_display_index, found_state_index]

/-- C6: a find-next/find-prev event scans the rows circularly starting one
position past the selected row, in the direction given by the binding and
flipped when the list is displayed in reverse; each scanned row is matched
by testing the needle as a substring of the primary item text and then,
when columns are present, of each column text in order (`row_match`); the
scan stops at the first matching row and selects it, and when the whole
circle has no match the event leaves the entire state unchanged and
reports nothing.  In particular over the items "apple", "banana",
"apricot" with needle "ap": typing "ap" selects "apple", find-next selects
"apricot", and find-next again wraps back to "apple". -/
theorem C6_find_next_prev (cfg : Cfg) (st : St) (isPrev : Bool)
    (hw : cfg.win_history = false) (hv : 0 < st.visible_rows)
    (ha : st.active = true) (h : Inv cfg st) :
    (((scan_positions cfg.count (find_direction cfg isPrev) st.index).find?
        (fun p => row_match cfg st.needle p) = none →
      on_input cfg st (if isPrev then Ev.findprev else Ev.findnext) = (st, false)) ∧
     (∀ j, (scan_positions cfg.count (find_direction cfg isPrev) st.index).find?
        (fun p => row_match cfg st.needle p) = some j →
      (on_input cfg st (if isPrev then Ev.findprev else Ev.findnext)).1.index = j)) ∧
    ((on_input cfgFruit (mkSt 0 0 10) (Ev.catchall [97, 112])).1.index = 0 ∧
     (on_input cfgFruit (mkSt 0 0 10) (Ev.catchall [97, 112])).1.needle = [97, 112] ∧
     (on_input cfgFruit ((on_input cfgFruit (mkSt 0 0 10) (Ev.catchall [97, 112])).1)
        Ev.findnext).1.index = 2 ∧
     (on_input cfgFruit ((on_input cfgFruit
        ((on_input cfgFruit (mkSt 0 0 10) (Ev.catchall [97, 112])).1)
        Ev.findnext).1) Ev.findnext).1.index = 0) := by
  have hchar := do_find_characterization cfg st isPrev ha h
  refine ⟨⟨?_, ?_⟩, by decide, by decide, by decide, by decide⟩
  · intro hnone
    cases isPrev
    · show on_input cfg st Ev.findnext = (st, false)
      simp only [on_input]
      rw [if_neg (by omega)]
      show (if cfg.win_history = true then (st, false)
        else do_find cfg st false true false false) = (st, false)
      rw [if_neg (by simp [hw])]
      exact hchar.1 hnone
    · show on_input cfg st Ev.findprev = (st, false)
      simp only [on_input]
      rw [if_neg (by omega)]
      show (if cfg.win_history = true then (st, false)
        else do_find cfg st true true false false) = (st, false)
      rw [if_neg (by simp [hw])]
      exact hchar.1 hnone
  · intro j hsome
    cases isPrev
    · show (on_input cfg st Ev.findnext).1.index = j
      simp only [on_input]
      rw [if_neg (by omega)]
      show (if cfg.win_history = true then (st, false)
        else do_find cfg st false true false false).1.index = j
      rw [if_neg (by simp [hw])]
      exact hchar.2 j hsome
    · show (on_input cfg st Ev.findprev).1.index = j
      simp only [on_input]
      rw [if_neg (by omega)]
      show (if cfg.win_history = true then (st, false)
        else do_find cfg st true true false false).1.index = j
      rw [if_neg (by simp [hw])]
      exact hchar.2 j hsome

/-! ## C3: the numeric history jump. -/

theorem findIdx?_lt_length {α : Type} (p : α → Bool) :
    ∀ (l : List α) (i k : Nat), List.findIdx? p l i = some k → k < i + l.length := by
  intro l
  induction l with
  | nil =>
    intro i k h
    simp [List.findIdx?] at h
  | cons a t ih =>
    intro i k h
    rw [List.findIdx?_cons] at h
    split_ifs at h with hp
    · injection h with h
      simp only [List.length_cons]
      omega
    · have := ih (i + 1) k h
      simp only [List.length_cons]
      omega

theorem seq_lookup_lt_length (l : List Int) (nd : List Nat) (k : Nat)
    (h : seq_lookup l nd = some k) : k < l.length := by
  simp only [seq_lookup] at h
  have := findIdx?_lt_length
    (fun info => prefixMatch nd (decDigits (info + 1).toNat)) l 0 k h
  omega

theorem jump_state_eq (cfg : Cfg) (st : St) (j : Int) :
    jump_state cfg st j =
      { st with
        index := j,
        top := (if j < st.top ∨ j ≥ st.top + st.visible_rows
          then max 0 (min (j - st.visible_rows / 2) (cfg.count - st.visible_rows))
          else st.top),
        prev_displayed := -1 } := by
  simp only [jump_state]
  split_ifs <;> rfl

theorem update_needle_numeric (cfg : Cfg) (stc : St) (l : List Int) (r : Bool)
    (hw : cfg.win_history = true) (hl : cfg.infos = some l)
    (hlen : (l.length : Int) = cfg.count)
    (hnin : stc.needle_is_number = true) (hne : stc.needle ≠ [])
    (ha : stc.active = true) (hInv : Inv cfg stc) :
    (update_needle cfg stc r false false).1.needle = stc.needle ∧
    (update_needle cfg stc r false false).1.needle_is_number = true ∧
    (match seq_lookup l (decDigits (atoiM stc.needle 0)) with
     | some k => (update_needle cfg stc r false false).1.index = (k : Int) ∧
         (update_needle cfg stc r false false).1.top =
           (if (k : Int) < stc.top ∨ (k : Int) ≥ stc.top + stc.visible_rows
             then max 0 (min ((k : Int) - stc.visible_rows / 2)
               (cfg.count - stc.visible_rows))
             else stc.top)
     | none => (update_needle cfg stc r false false).1.index = stc.index ∧
         (update_needle cfg stc r false false).1.top = stc.top) := by
  obtain ⟨h1, h2, h3, h4, h5, h6, h7, h8⟩ := hInv
  have hInv2 : Inv cfg stc := ⟨h1, h2, h3, h4, h5, h6, h7, h8⟩
  simp only [update_needle]
  rw [if_neg (not_not_intro hw), if_pos hnin, if_pos hne]
  simp only [hl]
  rcases hsl : seq_lookup l (decDigits (atoiM stc.needle 0)) with _ | k
  · simp only [hsl]
    rw [if_neg (by omega : ¬(0 ≤ cfg.count ∧ cfg.count < cfg.count))]
    have hti : Inv cfg { stc with override_title := some (Title.histT stc.needle) } :=
      title_inv cfg stc _ hInv2
    rw [update_display_eq cfg { stc with override_title := some (Title.histT stc.needle) }
      ha hti]
    exact ⟨rfl, hnin, rfl, rfl⟩
  · have hk := seq_lookup_lt_length l _ k hsl
    have hkc : (k : Int) < cfg.count := by omega
    simp only [hsl]
    rw [if_pos (⟨by omega, hkc⟩ : 0 ≤ ((k : Nat) : Int) ∧ ((k : Nat) : Int) < cfg.count)]
    have hti : Inv cfg { stc with override_title := some (Title.histT stc.needle) } :=
      title_inv cfg stc _ hInv2
    have hji : Inv cfg (jump_state cfg
        { stc with override_title := some (Title.histT stc.needle) } (k : Int)) := by
      refine jump_state_inv cfg _ _ h1 h2 (by omega) hkc h5 h6
    have hja : (jump_state cfg
        { stc with override_title := some (Title.histT stc.needle) } (k : Int)).active = true :=
      ((jump_state_fields cfg _ _).1).trans ha
    rw [update_display_eq cfg _ hja hji, jump_state_eq]
    exact ⟨rfl, hnin, rfl, rfl⟩

theorem collect_digit (cfg : Cfg) (st : St) (dch : Nat)
    (hw : cfg.win_history = true) (hd1 : 48 ≤ dch) (hd2 : dch ≤ 57) :
    List.foldl (collect_char cfg) (st, false, false) [dch] =
      ((if st.needle_is_number then
          (if st.needle.length < 6 then { st with needle := st.needle ++ [dch] } else st)
        else { st with override_title := none, needle := [dch], needle_is_number := true }),
       (if st.needle_is_number then false else st.has_override_title), false) := by
  by_cases hnin : st.needle_is_number = true <;>
    simp [collect_char, hw, hnin, hd1, hd2]

/-- C3 (amended): in windowed-history mode a digit keystroke accumulates
onto the numeric needle (starting a fresh run after non-numeric input, and
keeping at most six digits), and the commit matches the accumulated number
as a decimal-digit prefix of each row's sequence number
`infos[row].index + 1` rendered in decimal, by linear scan from row 0: the
first such row is selected, recentering the top offset when the row is out
of view, and when no row has the number as a decimal prefix the index and
top are left unchanged.  In particular with sequence numbers 1..42, typing
"4" then "2" ends with the row whose sequence number is 42 selected. -/
theorem C3_numeric_jump_amended (cfg : Cfg) (st : St) (l : List Int) (dch : Nat)
    (hw : cfg.win_history = true) (hl : cfg.infos = some l)
    (hlen : (l.length : Int) = cfg.count)
    (hicn : st.input_clears_needle = false)
    (ha : st.active = true) (h : Inv cfg st)
    (hd1 : 48 ≤ dch) (hd2 : dch ≤ 57) :
    ((on_input cfg st (Ev.catchall [dch])).1.needle = numeric_digit_needle st dch ∧
     (on_input cfg st (Ev.catchall [dch])).1.needle_is_number = true ∧
     (match seq_lookup l (decDigits (atoiM (numeric_digit_needle st dch) 0)) with
      | some k =>
          (on_input cfg st (Ev.catchall [dch])).1.index = (k : Int) ∧
          (on_input cfg st (Ev.catchall [dch])).1.top =
            (if (k : Int) < st.top ∨ (k : Int) ≥ st.top + st.visible_rows
              then max 0 (min ((k : Int) - st.visible_rows / 2)
                (cfg.count - st.visible_rows))
              else st.top)
      | none =>
          (on_input cfg st (Ev.catchall [dch])).1.index = st.index ∧
          (on_input cfg st (Ev.catchall [dch])).1.top = st.top)) ∧
    ((on_input cfgHist42 (mkSt 41 32 10) (Ev.catchall [52])).1.index = 3 ∧
     (on_input cfgHist42 ((on_input cfgHist42 (mkSt 41 32 10)
        (Ev.catchall [52])).1) (Ev.catchall [50])).1.index = 41 ∧
     (on_input cfgHist42 ((on_input cfgHist42 (mkSt 41 32 10)
        (Ev.catchall [52])).1) (Ev.catchall [50])).1.needle = [52, 50] ∧
     ((List.range 42).map (fun n => (n : Int))).getD 41 0 + 1 = 42) := by
  obtain ⟨h1, h2, h3, h4, h5, h6, h7, h8⟩ := h
  have hInv : Inv cfg st := ⟨h1, h2, h3, h4, h5, h6, h7, h8⟩
  refine ⟨?_, by decide, by decide, by decide, by decide⟩
  by_cases hnin : st.needle_is_number = true
  case neg =>
    have hon : on_input cfg st (Ev.catchall [dch]) =
        update_needle cfg
          { st with override_title := none, needle := [dch], needle_is_number := true }
          st.has_override_title false false := by
      simp only [on_input]
      rw [if_neg (by omega), if_neg (by simp [hicn]),
        collect_digit cfg st dch hw hd1 hd2, if_neg hnin, if_neg hnin]
    have hndl : numeric_digit_needle st dch = [dch] := by
      simp [numeric_digit_needle, hnin]
    have hun := update_needle_numeric cfg
      { st with override_title := none, needle := [dch], needle_is_number := true }
      l st.has_override_title hw hl hlen rfl (by simp) ha
      (by simpa [Inv] using hInv)
    rw [hon, hndl]
    exact ⟨hun.1, hun.2.1, hun.2.2⟩
  case pos =>
    by_cases hl6 : st.needle.length < 6
    case pos =>
      have hon : on_input cfg st (Ev.catchall [dch]) =
          update_needle cfg { st with needle := st.needle ++ [dch] }
            false false false := by
        simp only [on_input]
        rw [if_neg (by omega), if_neg (by simp [hicn]),
          collect_digit cfg st dch hw hd1 hd2, if_pos hnin, if_pos hnin, if_pos hl6]
      have hndl : numeric_digit_needle st dch = st.needle ++ [dch] := by
        simp [numeric_digit_needle, hnin, hl6]
      have hun := update_needle_numeric cfg { st with needle := st.needle ++ [dch] }
        l false hw hl hlen hnin (by simp) ha (by simpa [Inv] using hInv)
      rw [hon, hndl]
      exact ⟨hun.1, hun.2.1, hun.2.2⟩
    case neg =>
      have hon : on_input cfg st (Ev.catchall [dch]) =
          update_needle cfg st false false false := by
        simp only [on_input]
        rw [if_neg (by omega), if_neg (by simp [hicn]),
          collect_digit cfg st dch hw hd1 hd2, if_pos hnin, if_pos hnin, if_neg hl6]
      have hndl : numeric_digit_needle st dch = st.needle := by
        simp [numeric_digit_needle, hnin, hl6]
      have hne : st.needle ≠ [] := by
        intro hh
        rw [hh] at hl6
        simp at hl6
      have hun := update_needle_numeric cfg st l false hw hl hlen hnin hne ha hInv
      rw [hon, hndl]
      exact ⟨hun.1, hun.2.1, hun.2.2⟩

/-- Witness for C3 at a concrete windowed-history state: typing "4" over
the 42-entry history jumps to the first row whose decimal sequence number
starts with 4, namely sequence number 4 at row 3. -/
theorem C3_witness :
    ((on_input cfgHist42 (mkSt 41 32 10) (Ev.catchall [52])).1.needle =
      numeric_digit_needle (mkSt 41 32 10) 52 ∧
     (on_input cfgHist42 (mkSt 41 32 10) (Ev.catchall [52])).1.needle_is_number = true ∧
     (match seq_lookup ((List.range 42).map (fun n => (n : Int)))
        (decDigits (atoiM (numeric_digit_needle (mkSt 41 32 10) 52) 0)) with
      | some k =>
          (on_input cfgHist42 (mkSt 41 32 10) (Ev.catchall [52])).1.index = (k : Int) ∧
          (on_input cfgHist42 (mkSt 41 32 10) (Ev.catchall [52])).1.top =
            (if (k : Int) < (mkSt 41 32 10).top ∨
                (k : Int) ≥ (mkSt 41 32 10).top + (mkSt 41 32 10).visible_rows
              then max 0 (min ((k : Int) - (mkSt 41 32 10).visible_rows / 2)
                (cfgHist42.count - (mkSt 41 32 10).visible_rows))
              else (mkSt 41 32 10).top)
      | none =>
          (on_input cfgHist42 (mkSt 41 32 10) (Ev.catchall [52])).1.index =
            (mkSt 41 32 10).index ∧
          (on_input cfgHist42 (mkSt 41 32 10) (Ev.catchall [52])).1.top =
            (mkSt 41 32 10).top)) ∧
    ((on_input cfgHist42 (mkSt 41 32 10) (Ev.catchall [52])).1.index = 3 ∧
     (on_input cfgHist42 ((on_input cfgHist42 (mkSt 41 32 10)
        (Ev.catchall [52])).1) (Ev.catchall [50])).1.index = 41 ∧
     (on_input cfgHist42 ((on_input cfgHist42 (mkSt 41 32 10)
        (Ev.catchall [52])).1) (Ev.catchall [50])).1.needle = [52, 50] ∧
     ((List.range 42).map (fun n => (n : Int))).getD 41 0 + 1 = 42) :=
  C3_numeric_jump_amended cfgHist42 (mkSt 41 32 10)
    ((List.range 42).map (fun n => (n : Int))) 52 rfl (by decide) (by decide) rfl rfl
    (by refine ⟨?_, ?_, ?_, ?_, ?_, ?_, ?_, ?_⟩ <;> decide) (by decide) (by decide)

/-- C3 counterexample: with per-row sequence numbers 40, 41, 42 and the
cursor on row 2, typing the digit "4" (the accumulated number is 4, which
is no row's sequence number) moves the index to row 0 — the lookup is a
decimal-prefix match, not an equality lookup, so the index does not stay
unchanged when no row has the accumulated number. -/
theorem C3_counterexample :
    (on_input cfgHist40 (mkSt 2 0 10) (Ev.catchall [52])).1.index = 0 ∧
    (mkSt 2 0 10).index = 2 ∧
    cfgHist40.infos = some [39, 40, 41] ∧
    atoiM [52] 0 = 4 ∧
    (∀ x ∈ [(39 : Int), 40, 41], x + 1 ≠ 4) := by
  decide

/-- Witness for C6 at the fruit list with needle "ap": from row 0,
find-next scans rows 1, 2 and lands on "apricot" (row 2), and the example
chain types "ap" and presses find-next twice, visiting rows 0, 2, 0. -/
theorem C6_witness :
    (((scan_positions cfgFruit.count (find_direction cfgFruit false)
        stFruit.index).find? (fun p => row_match cfgFruit stFruit.needle p) = none →
      on_input cfgFruit stFruit (if false then Ev.findprev else Ev.findnext) =
        (stFruit, false)) ∧
     (∀ j, (scan_positions cfgFruit.count (find_direction cfgFruit false)
        stFruit.index).find? (fun p => row_match cfgFruit stFruit.needle p) = some j →
      (on_input cfgFruit stFruit
        (if false then Ev.findprev else Ev.findnext)).1.index = j)) ∧
    ((on_input cfgFruit (mkSt 0 0 10) (Ev.catchall [97, 112])).1.index = 0 ∧
     (on_input cfgFruit (mkSt 0 0 10) (Ev.catchall [97, 112])).1.needle = [97, 112] ∧
     (on_input cfgFruit ((on_input cfgFruit (mkSt 0 0 10) (Ev.catchall [97, 112])).1)
        Ev.findnext).1.index = 2 ∧
     (on_input cfgFruit ((on_input cfgFruit
        ((on_input cfgFruit (mkSt 0 0 10) (Ev.catchall [97, 112])).1)
        Ev.findnext).1) Ev.findnext).1.index = 0) :=
  C6_find_next_prev cfgFruit stFruit false rfl (by decide) rfl
    (by refine ⟨?_, ?_, ?_, ?_, ?_, ?_, ?_, ?_⟩ <;> decide)

theorem takeWhile_append_zero (l r : List Nat) (h : 0 ∈ l) :
    (l ++ r).takeWhile (· ≠ 0) = l.takeWhile (· ≠ 0) := by
  induction l with
  | nil => cases h
  | cons a t ih =>
    by_cases ha : a = 0
    · subst ha
      simp [List.takeWhile_cons]
    · have ht : 0 ∈ t := by
        rcases List.mem_cons.mp h with h1 | h1
        · exact absurd h1.symm ha
        · exact h1
      rw [List.cons_append, List.takeWhile_cons, List.takeWhile_cons,
        if_pos (decide_eq_true ha), if_pos (decide_eq_true ha), ih ht]

theorem takeWhile_terminated (l r : List Nat) (h : 0 ∉ l) :
    (l ++ 0 :: r).takeWhile (· ≠ 0) = l := by
  induction l with
  | nil => simp [List.takeWhile_cons]
  | cons a t ih =>
    have ha : a ≠ 0 := fun hh => h (hh ▸ List.mem_cons_self a t)
    have ht : 0 ∉ t := fun hh => h (List.mem_cons_of_mem a hh)
    rw [List.cons_append, List.takeWhile_cons, if_pos (decide_eq_true ha), ih ht]

theorem mem_drop_lt_length (l : List Nat) (n : Nat) (h : 0 ∈ l.drop n) :
    n < l.length := by
  by_contra hn
  rw [List.drop_eq_nil_of_le (by omega)] at h
  cases h

/-- Reading an existing handle is unchanged by a subsequent add. -/
theorem read_add_stable (s : Store) (item x : List Nat) (h : Nat × Nat)
    (hr : s.read h = some x) : ((s.add item).1).read h = some x := by
  unfold Store.read at hr
  rcases hg : s.pages.get? h.1 with _ | data
  · simp only [hg] at hr
    cases hr
  simp only [hg] at hr
  by_cases hmem : 0 ∈ data.drop (h.2 - page_header)
  swap
  · rw [if_neg hmem] at hr
    cases hr
  rw [if_pos hmem] at hr
  have hlt : h.1 < s.pages.length := by
    rcases List.get?_eq_some.mp hg with ⟨hh, _⟩
    exact hh
  simp only [Store.add, Store.read]
  by_cases hsp : item.length + 1 > s.back - s.front
  · rw [if_pos hsp]
    have hne : (s.pages ++ [[]]).length - 1 ≠ h.1 := by
      rw [List.length_append]
      simp only [List.length_cons, List.length_nil]
      omega
    rw [List.get?_eq_getElem?, List.getElem?_set_ne hne, ← List.get?_eq_getElem?,
      List.get?_append hlt]
    simp only [hg]
    rw [if_pos hmem]
    exact hr
  · rw [if_neg hsp]
    by_cases heq : h.1 = s.pages.length - 1
    · have hget : s.pages.getD (s.pages.length - 1) [] = data := by
        rw [← heq, List.getD_eq_getElem?_getD, ← List.get?_eq_getElem?, hg]
        rfl
      rw [heq, List.get?_eq_getElem?,
        List.getElem?_set_self (by omega), hget]
      dsimp only
      have hdlt : h.2 - page_header < data.length := mem_drop_lt_length data _ hmem
      rw [List.append_assoc, List.drop_append_of_le_length (by omega),
        if_pos (List.mem_append_left _ hmem), takeWhile_append_zero _ _ hmem]
      exact hr
    · rw [List.get?_eq_getElem?,
        List.getElem?_set_ne (fun hh => heq (hh.symm)), ← List.get?_eq_getElem?]
      simp only [hg]
      rw [if_pos hmem]
      exact hr

theorem read_foldl_stable (s : Store) (x : List Nat) (h : Nat × Nat)
    (items : List (List Nat)) (hr : s.read h = some x) :
    (items.foldl (fun st it => (st.add it).1) s).read h = some x := by
  induction items generalizing s with
  | nil => exact hr
  | cons it rest ih =>
    exact ih _ (read_add_stable s it x h hr)

theorem read_add_fresh (s : Store) (item : List Nat)
    (hwf : s.wf = true) (hz : 0 ∉ item) :
    (s.add item).1.read (s.add item).2 = some item := by
  simp only [Store.add, Store.read]
  by_cases hsp : item.length + 1 > s.back - s.front
  · rw [if_pos hsp]
    dsimp only
    have hlen : (s.pages ++ [[]]).length - 1 = s.pages.length := by
      rw [List.length_append]
      simp only [List.length_cons, List.length_nil]
      omega
    rw [hlen, List.get?_eq_getElem?,
      List.getElem?_set_self (by rw [List.length_append]; simp),
      List.getD_eq_getElem?_getD,
      List.getElem?_append_right (le_refl _)]
    simp only [Nat.sub_self, List.getElem?_cons_zero, Option.getD_some,
      List.nil_append, Nat.sub_self, List.drop_zero]
    rw [if_pos (List.mem_append_right _ (List.mem_singleton_self 0))]
    rw [show item ++ [0] = item ++ 0 :: [] from rfl, takeWhile_terminated item [] hz]
  · rw [if_neg hsp]
    have hpos : 0 < s.pages.length := by
      rcases hp : s.pages with _ | ⟨p, ps⟩
      · exfalso
        rw [Store.wf, hp] at hwf
        simp only [Bool.and_eq_true, decide_eq_true_eq] at hwf
        omega
      · simp
    have hfront : s.front =
        page_header + (s.pages.getD (s.pages.length - 1) []).length := by
      rcases hp : s.pages with _ | ⟨p, ps⟩
      · exfalso
        rw [Store.wf, hp] at hwf
        simp only [Bool.and_eq_true, decide_eq_true_eq] at hwf
        omega
      · rw [Store.wf, hp] at hwf
        simp only [decide_eq_true_eq] at hwf
        exact hwf
    rw [List.get?_eq_getElem?, List.getElem?_set_self (by omega)]
    dsimp only
    rw [hfront, Nat.add_sub_cancel_left, List.append_assoc,
      List.drop_left, if_pos (List.mem_append_right _ (List.mem_singleton_self 0)),
      show item ++ [0] = item ++ 0 :: [] from rfl, takeWhile_terminated item [] hz]

/-- C8: a string handed to the item store's add is copied, and its handle
reads back the byte-identical copy; the copy stays valid and unchanged
across any number of subsequent adds (including adds that spill onto a
fresh page: when the item and its terminator exceed the space left in the
current page, a new page is linked in and the page count grows by one,
while every prior page's bytes are untouched — in this model pages are
disjoint allocations, as the doc comment of `Store` records); clearing the
store releases every page, after which every handle reads back nothing. -/
theorem C8_store_stability (s : Store) (item x : List Nat) (h : Nat × Nat)
    (items : List (List Nat)) :
    (Store.wf s = true → 0 ∉ item →
      (s.add item).1.read (s.add item).2 = some item) ∧
    (s.read h = some x →
      (items.foldl (fun st it => (st.add it).1) s).read h = some x) ∧
    (item.length + 1 > s.back - s.front →
      ((s.add item).1).pages.length = s.pages.length + 1) ∧
    (Store.clear s).read h = none := by
  refine ⟨fun hwf hz => read_add_fresh s item hwf hz,
    fun hr => read_foldl_stable s x h items hr, fun hsp => ?_, rfl⟩
  simp only [Store.add]
  rw [if_pos hsp]
  dsimp only
  rw [List.length_set, List.length_append]
  simp

/-- Witness for C8: the item [1, 2] added to the empty store reads back
exactly, survives two further adds, a one-byte item spills a full page
into a second page, and after clear the old handle reads back nothing. -/
theorem C8_witness :
    ((Store.empty.add [1, 2]).1.read (Store.empty.add [1, 2]).2 = some [1, 2]) ∧
    (([[5], [6]].foldl (fun st it => (st.add it).1)
        (Store.empty.add [1, 2]).1).read (Store.empty.add [1, 2]).2 = some [1, 2]) ∧
    (((Store.mk [[1, 0]] pagesize pagesize).add [7]).1.pages.length =
      (Store.mk [[1, 0]] pagesize pagesize).pages.length + 1) ∧
    (Store.clear (Store.empty.add [1, 2]).1).read (0, 8) = none :=
  ⟨(C8_store_stability Store.empty [1, 2] [] (0, 0) []).1 (by decide) (by decide),
   (C8_store_stability (Store.empty.add [1, 2]).1 [9] [1, 2]
      (Store.empty.add [1, 2]).2 [[5], [6]]).2.1 (by decide),
   (C8_store_stability (Store.mk [[1, 0]] pagesize pagesize) [7] [] (0, 0) []).2.2.1
      (by decide),
   (C8_store_stability (Store.empty.add [1, 2]).1 [] [] (0, 8) []).2.2.2⟩

end Clink
